import Mathlib

/-!
# restate-sdk-go: wire codec and call/send replay

A shallow embedding of `internal/wire/wire.go` (frame codec) and
`internal/state/call.go` (call / one-way call on top of the journal).

Conventions of the embedding
* `uint16` / `uint32` values are natural numbers; where Go truncates, the
  embedding reduces modulo `2^16` / `2^32` explicitly.
* a byte is a `Fin 256`, a byte slice a list of bytes.
* `io.ReadWriter` is a value of `Stream`: the bytes still to be read, the bytes
  written so far and the number of bytes the writer still accepts.
* the protobuf library (`proto.Marshal` / `proto.Unmarshal`) is external and is
  passed in as a `ProtoLib`; `json.Marshal`, `json.Unmarshal`, `Await` and the
  reading of `time.Now()` are passed in as arguments.
* `fmt.Errorf` is only ever called without operands; that case of Go's
  `doPrintf` is written out in `Fmt`.
-/

namespace Wire

/-! ## Bytes and big-endian integers -/

abbrev Byte := Fin 256

abbrev Bytes := List Byte

/-- The low eight bits of `n` as a byte (Go: `byte(n)`). -/
def toByte (n : Nat) : Byte := ⟨n % 256, Nat.mod_lt n (by decide)⟩

/-- Unsigned big-endian value of a byte slice (`binary.BigEndian.UintNN`). -/
def bigEndian (bs : Bytes) : Nat := bs.foldl (fun acc b => acc * 256 + b.val) 0

/-- Two bytes, most significant first (`binary.BigEndian.PutUint16`). -/
def putUint16 (n : Nat) : Bytes := [toByte (n / 256), toByte n]

/-- Four bytes, most significant first (`binary.BigEndian.PutUint32`). -/
def putUint32 (n : Nat) : Bytes :=
  [toByte (n / 16777216), toByte (n / 65536), toByte (n / 256), toByte n]

/-- Largest `uint32`, `math.MaxUint32`. -/
def MaxUint32 : Nat := 4294967295

/-! ## Constants of `wire.go` -/

def FlagCompleted : Nat := 0x0001

def FlagRequiresAck : Nat := 0x8000

def VersionMask : Nat := 0x03FF

def StartMessageType : Nat := 0x0000

def CompletionMessageType : Nat := 0x0000 + 1

def SuspensionMessageType : Nat := 0x0000 + 2

def ErrorMessageType : Nat := 0x0000 + 3

def EntryAckMessageType : Nat := 0x0000 + 4

def EndMessageType : Nat := 0x0000 + 5

def InputEntryMessageType : Nat := 0x0400

def OutputEntryMessageType : Nat := 0x0400 + 1

def GetStateEntryMessageType : Nat := 0x0800

def SetStateEntryMessageType : Nat := 0x0800 + 1

def ClearStateEntryMessageType : Nat := 0x0800 + 2

def ClearAllStateEntryMessageType : Nat := 0x0800 + 3

def GetStateKeysEntryMessageType : Nat := 0x0800 + 4

def SleepEntryMessageType : Nat := 0x0C00

def CallEntryMessageType : Nat := 0x0C00 + 1

def OneWayCallEntryMessageType : Nat := 0x0C00 + 2

def AwakeableEntryMessageType : Nat := 0x0C00 + 3

def CompleteAwakeableEntryMessageType : Nat := 0x0C00 + 4

def RunEntryMessageType : Nat := 0x0C00 + 5

/-- Go: `func (r Flag) Completed() bool`. -/
def Flag.Completed (r : Nat) : Bool := r &&& FlagCompleted != 0

/-- Go: `func (r Flag) Ack() bool`. -/
def Flag.Ack (r : Nat) : Bool := r &&& FlagRequiresAck != 0

/-! ## Header -/

/-- Go: `type Header struct { TypeCode Type; Flag Flag; Length uint32 }`. -/
structure Header where
  TypeCode : Nat
  Flag : Nat
  Length : Nat
  deriving DecidableEq, Repr

def Header.Type (t : Header) : Nat := t.TypeCode

def Header.Flags (t : Header) : Nat := t.Flag

/-- The eight bytes `binary.Write(_, binary.BigEndian, header)` produces:
the three fields in declaration order, each big-endian. -/
def Header.encode (h : Header) : Bytes :=
  putUint16 h.TypeCode ++ putUint16 h.Flag ++ putUint32 h.Length

/-- The header `binary.Read(_, binary.BigEndian, &header)` fills in from the
eight bytes it has read. -/
def Header.decode (bs : Bytes) : Header :=
  { TypeCode := bigEndian (bs.take 2)
    Flag := bigEndian ((bs.drop 2).take 2)
    Length := bigEndian ((bs.drop 4).take 4) }

/-! ## The stream -/

/-- Errors of the `io` package that the stream can report. -/
inductive IOError
  | EOF
  | ErrUnexpectedEOF
  | ErrClosedPipe
  deriving DecidableEq, Repr

/-- An `io.ReadWriter`: `input` are the bytes the peer has sent and that are
not yet consumed, `output` the bytes written so far, and `room` the number of
bytes the writer still accepts before it fails (`none`: it never fails). -/
structure Stream where
  input : Bytes
  output : Bytes
  room : Option Nat
  deriving DecidableEq, Repr

/-- Go: `io.ReadFull(stream, buf)` with `len(buf) = n`: either exactly `n`
bytes, or an error after draining what was left (`EOF` when nothing was
left, `ErrUnexpectedEOF` otherwise). -/
def Stream.ReadFull (s : Stream) (n : Nat) : Except IOError Bytes × Stream :=
  if n ≤ s.input.length then
    (.ok (s.input.take n), { s with input := s.input.drop n })
  else if s.input.length = 0 then
    (.error .EOF, s)
  else
    (.error .ErrUnexpectedEOF, { s with input := [] })

/-- Go: `stream.Write(bs)`: all of `bs` is appended when the writer has room
for it; otherwise only the bytes that fit are, and an error is returned. -/
def Stream.Write (s : Stream) (bs : Bytes) : Except IOError Unit × Stream :=
  match s.room with
  | none => (.ok (), { s with output := s.output ++ bs })
  | some r =>
    if bs.length ≤ r then
      (.ok (), { s with output := s.output ++ bs, room := some (r - bs.length) })
    else
      (.error .ErrClosedPipe, { s with output := s.output ++ bs.take r, room := some 0 })

/-- A fresh in-memory stream holding `input`, nothing written, no write limit. -/
def Stream.ofInput (input : Bytes) : Stream :=
  { input := input, output := [], room := none }

/-! ## Protobuf messages -/

/-- The dynamic type of a `proto.Message` handed to `Protocol.Write`, and the
payload type of each wire message struct. `Other` stands for any protobuf
message type that is not one of the protocol's frames. -/
inductive ProtoKind
  | StartMessage
  | CompletionMessage
  | SuspensionMessage
  | ErrorMessage
  | EntryAckMessage
  | EndMessage
  | InputEntryMessage
  | OutputEntryMessage
  | GetStateEntryMessage
  | SetStateEntryMessage
  | ClearStateEntryMessage
  | ClearAllStateEntryMessage
  | GetStateKeysEntryMessage
  | SleepEntryMessage
  | CallEntryMessage
  | OneWayCallEntryMessage
  | AwakeableEntryMessage
  | CompleteAwakeableEntryMessage
  | RunEntryMessage
  | Other (name : String)
  deriving DecidableEq, Repr

/-- A `proto.Message`: its dynamic type and its field values. The field
values are opaque to the codec, so their type `P` is left open. -/
structure ProtoMessage (P : Type) where
  kind : ProtoKind
  body : P

/-- The two functions of `google.golang.org/protobuf/proto` the codec calls.
`Unmarshal kind bytes` decodes `bytes` into a zero value of type `kind`. -/
structure ProtoLib (P : Type) where
  Marshal : ProtoMessage P → Except String Bytes
  Unmarshal : ProtoKind → Bytes → Except String P

/-! ## Errors of the codec -/

inductive Error
  /-- Go error text: "failed to read message header: %w" -/
  | headerRead (e : IOError)
  /-- Go error text: "failed to read message body: %w" -/
  | bodyRead (e : IOError)
  /-- Go error text: "unknown message type '%d'" -/
  | unknownMessageType (typeCode : Nat)
  /-- The error of `proto.Unmarshal`, returned by the builder unchanged -/
  | unmarshal (e : String)
  /-- Go error text: "can not send message of unknown message type" -/
  | unknownOutbound
  /-- Go error text: "failed to serialize message: %w" -/
  | serialize (e : String)
  /-- Go error text: "message size is too big" -/
  | tooBig
  /-- Go error text: "failed to write header: %w" -/
  | headerWrite (e : IOError)
  /-- Go error text: "failed to write message: %w" -/
  | bodyWrite (e : IOError)
  deriving DecidableEq, Repr

/-! ## Messages returned by `Read` -/

/-- A value of the `Message` interface as `Read` returns it: one of the wire
structs (`StartMessage`, `InputEntryMessage`, ...), each of which embeds the
frame `Header` and holds the decoded `Payload`. -/
structure Message (P : Type) where
  kind : ProtoKind
  Header : Header
  Payload : P
  deriving DecidableEq

def Message.Type {P : Type} (m : Message P) : Nat := m.Header.Type

def Message.Flags {P : Type} (m : Message P) : Nat := m.Header.Flags

/-- Go: `type messageBuilder func(header Header, bytes []byte) (Message, error)`. -/
abbrev messageBuilder (P : Type) := Header → Bytes → Except String (Message P)

/-- The common body of every entry of `builders`:
`msg := &XMessage{Header: header}; return msg, proto.Unmarshal(bytes, &msg.Payload)`.
`Read` drops the message whenever the error is not nil, so the pair is
rendered as one result: the message, or the error of `proto.Unmarshal`. -/
def builderOf {P : Type} (proto : ProtoLib P) (kind : ProtoKind) : messageBuilder P :=
  fun header bytes =>
    match proto.Unmarshal kind bytes with
    | .ok payload => .ok { kind := kind, Header := header, Payload := payload }
    | .error e => .error e

/-- The keys of the `builders` map, in source order, each with the wire struct
its builder allocates. -/
def builderKeys : List (Nat × ProtoKind) :=
  [ (StartMessageType, .StartMessage),
    (EntryAckMessageType, .EntryAckMessage),
    (InputEntryMessageType, .InputEntryMessage),
    (OutputEntryMessageType, .OutputEntryMessage),
    (GetStateEntryMessageType, .GetStateEntryMessage),
    (SetStateEntryMessageType, .SetStateEntryMessage),
    (ClearStateEntryMessageType, .ClearStateEntryMessage),
    (ClearAllStateEntryMessageType, .ClearAllStateEntryMessage),
    (GetStateKeysEntryMessageType, .GetStateKeysEntryMessage),
    (CompletionMessageType, .CompletionMessage),
    (SleepEntryMessageType, .SleepEntryMessage),
    (CallEntryMessageType, .CallEntryMessage),
    (OneWayCallEntryMessageType, .OneWayCallEntryMessage),
    (AwakeableEntryMessageType, .AwakeableEntryMessage),
    (CompleteAwakeableEntryMessageType, .CompleteAwakeableEntryMessage),
    (RunEntryMessageType, .RunEntryMessage) ]

/-- Go: `builders[t]` (value and `ok`). -/
def builders {P : Type} (proto : ProtoLib P) (t : Nat) : Option (messageBuilder P) :=
  (builderKeys.lookup t).map (builderOf proto)

/-! ## Protocol -/

/-- Go: `func (s *Protocol) header() (header Header, err error)`. -/
def Protocol.header (s : Stream) : Except IOError Header × Stream :=
  match s.ReadFull 8 with
  | (.ok bs, s1) => (.ok (Header.decode bs), s1)
  | (.error e, s1) => (.error e, s1)

/-- Go: `func (s *Protocol) Read() (Message, error)`. -/
def Protocol.Read {P : Type} (proto : ProtoLib P) (s : Stream) :
    Except Error (Message P) × Stream :=
  match Protocol.header s with
  | (.error e, s1) => (.error (.headerRead e), s1)
  | (.ok header, s1) =>
    match s1.ReadFull header.Length with
    | (.error e, s2) => (.error (.bodyRead e), s2)
    | (.ok buf, s2) =>
      match builders proto header.TypeCode with
      | none => (.error (.unknownMessageType header.TypeCode), s2)
      | some builder =>
        match builder header buf with
        | .error e => (.error (.unmarshal e), s2)
        | .ok msg => (.ok msg, s2)

/-- The type switch at the head of `Protocol.Write`: the type code of each
variant the SDK sends, `none` for the `default` branch. -/
def typeOf : ProtoKind → Option Nat
  | .StartMessage => some StartMessageType
  | .SuspensionMessage => some SuspensionMessageType
  | .InputEntryMessage => some InputEntryMessageType
  | .OutputEntryMessage => some OutputEntryMessageType
  | .ErrorMessage => some ErrorMessageType
  | .EndMessage => some EndMessageType
  | .GetStateEntryMessage => some GetStateEntryMessageType
  | .SetStateEntryMessage => some SetStateEntryMessageType
  | .ClearStateEntryMessage => some ClearStateEntryMessageType
  | .ClearAllStateEntryMessage => some ClearAllStateEntryMessageType
  | .GetStateKeysEntryMessage => some GetStateKeysEntryMessageType
  | .SleepEntryMessage => some SleepEntryMessageType
  | .CallEntryMessage => some CallEntryMessageType
  | .OneWayCallEntryMessage => some OneWayCallEntryMessageType
  | .AwakeableEntryMessage => some AwakeableEntryMessageType
  | .CompleteAwakeableEntryMessage => some CompleteAwakeableEntryMessageType
  | .RunEntryMessage => some RunEntryMessageType
  | _ => none

/-- Go: `func (s *Protocol) Write(message proto.Message, flag Flag) error`. -/
def Protocol.Write {P : Type} (proto : ProtoLib P) (s : Stream)
    (message : ProtoMessage P) (flag : Nat) : Except Error Unit × Stream :=
  match typeOf message.kind with
  | none => (.error .unknownOutbound, s)
  | some typ =>
    match proto.Marshal message with
    | .error e => (.error (.serialize e), s)
    | .ok bytes =>
      if bytes.length > MaxUint32 then
        (.error .tooBig, s)
      else
        let header : Header :=
          { TypeCode := typ, Flag := flag, Length := bytes.length % 4294967296 }
        match s.Write header.encode with
        | (.error e, s1) => (.error (.headerWrite e), s1)
        | (.ok _, s1) =>
          match s1.Write bytes with
          | (.error e, s2) => (.error (.bodyWrite e), s2)
          | (.ok _, s2) => (.ok (), s2)

/-- A concrete protobuf library for examples: the body of a message is its own
serialization, and every byte slice decodes to itself. -/
def rawProto : ProtoLib Bytes :=
  { Marshal := fun m => .ok m.body
    Unmarshal := fun _ bytes => .ok bytes }

end Wire

/-! # `fmt` with no operands

`call.go` builds the text of an error with `fmt.Errorf(failure.Message)`: the
message is the format string and there is no operand. This section follows
`doPrintf` of Go's `fmt/print.go` for that case (`len(a) = 0`), over the
characters of the format. -/

namespace Fmt

/-- Go: `tooLarge(x)`, the overflow guard of `parsenum`. -/
def tooLarge (x : Nat) : Bool := x > 1000000

/-- Go: `parsenum(s, start, end)` on the text `s[start:end]`, with the value
read so far and whether a digit was seen. The result is `isnum` and the text
from `newi` on; on overflow Go returns `isnum = false` and `newi = end`. -/
def parsenum : List Char → Nat → Bool → Bool × List Char
  | [], _, isnum => (isnum, [])
  | c :: cs, num, isnum =>
    if c.isDigit then
      if tooLarge num then (false, [])
      else parsenum cs (num * 10 + (c.toNat - 48)) true
    else (isnum, c :: cs)

/-- Go: `parseArgNumber(format)` on a text that starts with an opening
bracket: `ok` and the text after the `wid` characters it consumed. -/
def parseArgNumber (format : List Char) : Bool × List Char :=
  if format.length < 3 then
    (false, format.drop 1)
  else
    match (format.drop 1).span (fun c => c != ']') with
    | (inside, _ :: rest) =>
      match parsenum inside 0 false with
      | (true, []) => (true, rest)
      | _ => (false, rest)
    | (_, []) => (false, format.drop 1)

/-- Go: `(p *pp) argNumber(argNum, format, i, numArgs)` with `numArgs = 0`:
the text from `newi` on, `found`, and whether `p.goodArgNum` was cleared (it
is whenever an index is present, as no index is in range). -/
def argNumber (format : List Char) : List Char × Bool × Bool :=
  match format with
  | '[' :: _ => ((parseArgNumber format).2, (parseArgNumber format).1, true)
  | _ => (format, false, false)

/-- The flag characters skipped by the `simpleFormat` loop of `doPrintf`. -/
def isFlag (c : Char) : Bool :=
  c == '#' || c == '0' || c == '+' || c == '-' || c == ' '

/-- The width step of `doPrintf`: output, remaining text, `afterIndex` and
whether `p.goodArgNum` was cleared. A star finds no operand and prints
`%!(BADWIDTH)`. -/
def width (format : List Char) (afterIndex : Bool) :
    List Char × List Char × Bool × Bool :=
  match format with
  | '*' :: t => ("%!(BADWIDTH)".data, t, false, false)
  | _ =>
    ([], (parsenum format 0 false).2, afterIndex,
      afterIndex && (parsenum format 0 false).1)

/-- The precision step of `doPrintf`: output, remaining text, `afterIndex`
and whether `p.goodArgNum` was cleared. A star finds no operand and prints
`%!(BADPREC)`. -/
def precision (format : List Char) (afterIndex : Bool) :
    List Char × List Char × Bool × Bool :=
  match format with
  | '.' :: t =>
    match argNumber t with
    | ('*' :: t2, _, bad) => ("%!(BADPREC)".data, t2, false, afterIndex || bad)
    | (t1, found, bad) => ([], (parsenum t1 0 false).2, found, afterIndex || bad)
  | _ => ([], format, afterIndex, false)

/-- The last step of one verb of `doPrintf`: a format that ends here prints
`%!(NOVERB)`, a percent sign prints itself, any other verb has no operand
and prints `%!v(BADINDEX)` or `%!v(MISSING)`. -/
def verb (format : List Char) (goodArgNum : Bool) : List Char × List Char :=
  match format with
  | [] => ("%!(NOVERB)".data, [])
  | v :: rest =>
    if v == '%' then ([v], rest)
    else if !goodArgNum then ("%!".data ++ [v] ++ "(BADINDEX)".data, rest)
    else ("%!".data ++ [v] ++ "(MISSING)".data, rest)

/-- The body of the `formatLoop` of `doPrintf` for the text after a percent
sign: flags, argument index, width, precision, argument index, verb. The
result is the output of this verb and the format that is left. -/
def processVerb (format : List Char) : List Char × List Char :=
  let a := argNumber (format.dropWhile isFlag)
  let w := width a.1 a.2.1
  let p := precision w.2.1 w.2.2.1
  let b := if p.2.2.1 then (p.2.1, false, false) else argNumber p.2.1
  let v := verb b.1 (!(a.2.2 || w.2.2.2 || p.2.2.2 || b.2.2))
  (w.1 ++ p.1 ++ v.1, v.2)

/-- Go: `(p *pp) doPrintf(format, a)` with no operands. Each round copies the
text up to the next percent sign and processes one verb; `fuel` bounds the
number of rounds, and every round consumes at least the percent sign. -/
def doPrintf : Nat → List Char → List Char
  | 0, _ => []
  | fuel + 1, format =>
    match format.dropWhile (fun c => c != '%') with
    | [] => format.takeWhile (fun c => c != '%')
    | _ :: t =>
      format.takeWhile (fun c => c != '%') ++ (processVerb t).1 ++
        doPrintf fuel (processVerb t).2

/-- Go: `fmt.Sprintf(format)`. -/
def Sprintf (format : String) : String :=
  String.mk (doPrintf (format.length + 1) format.data)

/-- The text of the error `fmt.Errorf(format)` returns: there is no operand to
wrap, so the error is `errors.New` of the formatted text. -/
def Errorf (format : String) : String := Sprintf format

end Fmt

namespace State

open Wire (Bytes)

/-! ## Messages used by `call.go` -/

/-- Go: `protocol.Failure`. -/
structure Failure where
  Code : Nat
  Message : String
  deriving DecidableEq, Repr

/-- The `Result` oneof of a call entry: `CallEntryMessage_Value` or
`CallEntryMessage_Failure`. -/
inductive CallResult
  | Value (value : Bytes)
  | Failure (failure : Failure)
  deriving DecidableEq, Repr

/-- The fields of `wire.CallEntryMessage` that `call.go` reads and writes
(`Result` is `none` while the oneof is unset). -/
structure CallEntryMessage where
  ServiceName : String
  HandlerName : String
  Parameter : Bytes
  Key : String
  Result : Option CallResult
  deriving DecidableEq, Repr

/-- The fields of `wire.OneWayCallEntryMessage` that `call.go` reads and
writes. -/
structure OneWayCallEntryMessage where
  ServiceName : String
  HandlerName : String
  Parameter : Bytes
  Key : String
  InvokeTime : Nat
  deriving DecidableEq, Repr

/-- A journal entry or outbound frame: a call entry, a one-way call entry, or
an entry of another type, of which only the type code matters here. -/
inductive Entry
  | call (msg : CallEntryMessage)
  | oneWayCall (msg : OneWayCallEntryMessage)
  | other (typeCode : Nat)
  deriving DecidableEq, Repr

/-- Go: the type assertion `entry.(*wire.CallEntryMessage)`. -/
def Entry.asCall : Entry → Option CallEntryMessage
  | .call msg => some msg
  | _ => none

/-- Go: the type assertion `entry.(*wire.OneWayCallEntryMessage)`. -/
def Entry.asOneWayCall : Entry → Option OneWayCallEntryMessage
  | .oneWayCall msg => some msg
  | _ => none

/-- Modelled from the spec: the `restate.Code` type and its constants are not
among the sources. A code is either the constant `ErrProtocolViolation` or
the conversion `restate.Code(c)` of the code `c` of a failure, which carries
`c` as given. -/
inductive Code
  | ErrProtocolViolation
  | ofFailure (c : Nat)
  deriving DecidableEq, Repr

/-- The error a terminal error wraps: the three `fmt.Errorf` calls of
`call.go`. -/
inductive TerminalCause
  /-- Go: `fmt.Errorf(failure.Message)`, with the text it produces. -/
  | errorf (text : String)
  /-- Go error text: "sync call had invalid result: %v" of the unset result. -/
  | invalidResult
  /-- Go error text: "failed to decode response (%s): %w" of the bytes and of
  the error of `json.Unmarshal`. -/
  | decodeResponse (bytes : Bytes) (err : String)
  deriving DecidableEq, Repr

/-- Errors of the state machine that `call.go` returns or passes on. -/
inductive Error
  /-- Go: `errEntryMismatch`, the journal-mismatch failure. -/
  | errEntryMismatch
  /-- The journaled entry at the cursor has another entry type -/
  | entryTypeMismatch
  /-- The journal holds no entry at a replayed index -/
  | protocolViolation
  /-- Go error text: "failed to send request message: %w" -/
  | sendRequest (cause : Wire.Error)
  /-- The error of `json.Marshal`, returned unchanged -/
  | jsonMarshal (e : String)
  /-- An error made outside `call.go` and passed on unchanged, such as the
  error of `Await` (stream closed, context cancelled). -/
  | external (text : String)
  /-- Modelled from the spec: `restate.TerminalError(err, code...)` is not
  among the sources; per section 7 a terminal error is the caller-visible
  failure that wraps `err` and carries the code, when one is passed. -/
  | terminal (cause : TerminalCause) (code : Option Code)
  /-- The panic of dereferencing a nil `msg`. -/
  | nilDereference
  deriving DecidableEq, Repr

/-! ## The machine -/

/-- Modelled from the spec: the `Machine` type is not among the sources. Of
the journal of section 3 it holds the entries, the cursor `current_index`
and `replay_count`; of the stream, the frames written to the runtime so far
and whether it is closed. -/
structure Machine where
  current_index : Nat
  replay_count : Nat
  journal : List Entry
  written : List Entry
  closed : Bool
  deriving DecidableEq, Repr

/-- Modelled from the spec: `journal[i]` of section 4.3; entries are numbered
from 1 (section 3), so there is no entry 0. -/
def journalAt (journal : List Entry) : Nat → Option Entry
  | 0 => none
  | i + 1 => journal.get? i

/-- Modelled from the spec: `Machine.Write` is not among the sources. Per
section 3 a new entry is emitted to the runtime via the codec, one frame per
entry; per section 7 a write on a closed stream is a transient I/O failure
and nothing is sent. -/
def Machine.Write (m : Machine) (msg : Entry) : Except Wire.Error Unit × Machine :=
  if m.closed then
    (.error (.headerWrite .ErrClosedPipe), m)
  else
    (.ok (), { m with written := m.written ++ [msg] })

/-- Modelled from the spec: `replayOrNew` is not among the sources; this is
`replay_or_new(match_fn, new_fn)` of section 4.3. `expected` is the type
assertion to the entry type `M` the operation expects. The cursor is read
and incremented; at an index within the replay count the journaled entry is
type-checked and handed to `match_fn`, whose failure is the terminal
mismatch; beyond it `new_fn` builds and writes the entry, which is appended
to the journal (the entry is read back from the frames `new_fn` wrote, as the
Go result type `O` of `new_fn` need not be the entry itself). -/
def replayOrNew {M O : Type} (m : Machine) (expected : Entry → Option M)
    (match_fn : M → Except Error O)
    (new_fn : Machine → Except Error O × Machine) : Except Error O × Machine :=
  let i := m.current_index
  let m1 := { m with current_index := m.current_index + 1 }
  if i ≤ m.replay_count then
    match journalAt m1.journal i with
    | none => (.error .protocolViolation, m1)
    | some entry =>
      match expected entry with
      | none => (.error .entryTypeMismatch, m1)
      | some e =>
        match match_fn e with
        | .error err => (.error err, m1)
        | .ok result => (.ok result, m1)
  else
    match new_fn m1 with
    | (.error err, m2) => (.error err, m2)
    | (.ok result, m2) =>
      (.ok result, { m2 with journal := m2.journal ++ m2.written.drop m1.written.length })

/-! ## `call.go` -/

/-- Go: `func (m *Machine) _doCall(service, key, method string, params []byte)`. -/
def Machine._doCall (m : Machine) (service key method : String) (params : Bytes) :
    Except Error CallEntryMessage × Machine :=
  let msg : CallEntryMessage :=
    { ServiceName := service
      HandlerName := method
      Parameter := params
      Key := key
      Result := none }
  match m.Write (.call msg) with
  | (.error err, m1) => (.error (.sendRequest err), m1)
  | (.ok _, m1) => (.ok msg, m1)

/-- The first closure `doCall` passes to `replayOrNew`: the match function
run on the journaled call entry. -/
def doCall_match (service key method : String) (params : Bytes)
    (entry : CallEntryMessage) : Except Error CallEntryMessage :=
  if entry.ServiceName != service ||
      entry.Key != key ||
      entry.HandlerName != method ||
      !(entry.Parameter == params) then
    .error .errEntryMismatch
  else
    .ok entry

/-- Go: `func (m *Machine) doCall(service, key, method string, params []byte)`. -/
def Machine.doCall (m : Machine) (service key method : String) (params : Bytes) :
    Except Error CallEntryMessage × Machine :=
  replayOrNew m Entry.asCall
    (doCall_match service key method params)
    (fun m1 => m1._doCall service key method params)

/-- The value of `uint64(time.Now().Add(delay).UnixMilli())` in `_sendCall`,
or 0 for a zero delay. `now` is `time.Now()` and `delay` the duration, both
in nanoseconds (`now` since the Unix epoch); `UnixMilli` rounds down and the
conversion to `uint64` wraps modulo `2^64`. -/
def invokeTime (now delay : Int) : Nat :=
  if delay != 0 then
    (((now + delay) / 1000000) % 18446744073709551616).toNat
  else
    0

/-- Go: `func (c *Machine) _sendCall(service, key, method string, params []byte,
delay time.Duration) error`, with the reading of `time.Now()` passed in. -/
def Machine._sendCall (c : Machine) (now : Int) (service key method : String)
    (params : Bytes) (delay : Int) : Except Error Unit × Machine :=
  match c.Write (.oneWayCall
      { ServiceName := service
        HandlerName := method
        Parameter := params
        Key := key
        InvokeTime := invokeTime now delay }) with
  | (.error err, c1) => (.error (.sendRequest err), c1)
  | (.ok _, c1) => (.ok (), c1)

/-- The first closure `sendCall` passes to `replayOrNew`: the match function
run on the journaled one-way call entry. -/
def sendCall_match (service key method : String) (params : Bytes)
    (entry : OneWayCallEntryMessage) : Except Error Unit :=
  if entry.ServiceName != service ||
      entry.Key != key ||
      entry.HandlerName != method ||
      !(entry.Parameter == params) then
    .error .errEntryMismatch
  else
    .ok ()

/-- Go: `func (c *Machine) sendCall(service, key, method string, body any,
delay time.Duration) error`. `marshal` is `json.Marshal` on the type `B` of
`body`, `now` the reading of `time.Now()`. -/
def Machine.sendCall {B : Type} (marshal : B → Except String Bytes) (c : Machine)
    (now : Int) (service key method : String) (body : B) (delay : Int) :
    Except Error Unit × Machine :=
  match marshal body with
  | .error err => (.error (.jsonMarshal err), c)
  | .ok params =>
    replayOrNew c Entry.asOneWayCall
      (sendCall_match service key method params)
      (fun c1 => c1._sendCall now service key method params delay)

/-- Go: `func ErrorFromFailure(failure *protocol.Failure) error`. -/
def ErrorFromFailure (failure : Failure) : Error :=
  .terminal (.errorf (Fmt.Errorf failure.Message)) (some (.ofFailure failure.Code))

/-- Go: `type responseFuture struct`, without the context: the stored error
and the call entry, either of which may be nil. -/
structure responseFuture where
  err : Option Error
  msg : Option CallEntryMessage
  deriving DecidableEq, Repr

/-- Go: `func (r *responseFuture) Err() error`. -/
def responseFuture.Err (r : responseFuture) : Option Error := r.err

/-- Go: `func (r *responseFuture) Response(output any) error`. `Await` is
`r.msg.Await(r.ctx)`, which is not among the sources: it returns an error, or
nil once the completion of the entry has arrived, and then the entry is read
as completed. `unmarshal` is `json.Unmarshal` into the type `O` of `output`.
The result is the error, or the value stored into `output` when the error is
nil. -/
def responseFuture.Response {O : Type}
    (Await : CallEntryMessage → Except Error CallEntryMessage)
    (unmarshal : Bytes → Except String O) (r : responseFuture) : Except Error O :=
  match r.err with
  | some err => .error err
  | none =>
    match r.msg with
    | none => .error .nilDereference
    | some msg =>
      match Await msg with
      | .error err => .error err
      | .ok completed =>
        match completed.Result with
        | some (.Failure failure) => .error (ErrorFromFailure failure)
        | some (.Value value) =>
          match unmarshal value with
          | .error err => .error (.terminal (.decodeResponse value err) none)
          | .ok output => .ok output
        | none => .error (.terminal .invalidResult (some .ErrProtocolViolation))

/-- Go: `func (m *Machine) doDynCall(service, key, method string, input any)`.
`marshal` is `json.Marshal` on the type `I` of `input`. -/
def Machine.doDynCall {I : Type} (marshal : I → Except String Bytes) (m : Machine)
    (service key method : String) (input : I) :
    Except Error CallEntryMessage × Machine :=
  match marshal input with
  | .error err => (.error (.jsonMarshal err), m)
  | .ok params => m.doCall service key method params

/-- Go: `type serviceCall struct`, with the machine of its context. -/
structure serviceCall where
  machine : Machine
  service : String
  key : String
  method : String

/-- Go: `func (c *serviceCall) Request(input any) restate.ResponseFuture`,
together with the machine after the call. -/
def serviceCall.Request {I : Type} (marshal : I → Except String Bytes)
    (c : serviceCall) (input : I) : responseFuture × Machine :=
  match c.machine.doDynCall marshal c.service c.key c.method input with
  | (.error err, m) => ({ err := some err, msg := none }, m)
  | (.ok msg, m) => ({ err := none, msg := some msg }, m)

end State

/-! # Properties of the codec -/

namespace Wire

theorem bigEndian_putUint16 (n : Nat) (h : n < 65536) : bigEndian (putUint16 n) = n := by
  simp only [bigEndian, putUint16, toByte, List.foldl_cons, List.foldl_nil]
  omega

theorem bigEndian_putUint32 (n : Nat) (h : n < 4294967296) :
    bigEndian (putUint32 n) = n := by
  simp only [bigEndian, putUint32, toByte, List.foldl_cons, List.foldl_nil]
  omega

theorem encode_length (h : Header) : h.encode.length = 8 := by
  simp [Header.encode, putUint16, putUint32]

theorem decode_encode (h : Header) (hT : h.TypeCode < 65536) (hF : h.Flag < 65536)
    (hL : h.Length < 4294967296) : Header.decode h.encode = h := by
  have e1 : (h.encode).take 2 = putUint16 h.TypeCode := by
    simp [Header.encode, putUint16, putUint32]
  have e2 : ((h.encode).drop 2).take 2 = putUint16 h.Flag := by
    simp [Header.encode, putUint16, putUint32]
  have e3 : ((h.encode).drop 4).take 4 = putUint32 h.Length := by
    simp [Header.encode, putUint16, putUint32]
  simp only [Header.decode, e1, e2, e3, bigEndian_putUint16 _ hT, bigEndian_putUint16 _ hF,
    bigEndian_putUint32 _ hL]

/-- On a stream that holds a complete frame, `Read` consumes the frame and its
result is decided by the dispatch table and the builder alone. -/
theorem Read_complete {P : Type} (proto : ProtoLib P) (s : Stream)
    (h8 : 8 ≤ s.input.length)
    (hlen : (Header.decode (s.input.take 8)).Length ≤ s.input.length - 8) :
    Protocol.Read proto s =
      ((match builders proto (Header.decode (s.input.take 8)).TypeCode with
        | none => .error (.unknownMessageType (Header.decode (s.input.take 8)).TypeCode)
        | some builder =>
          match builder (Header.decode (s.input.take 8))
              ((s.input.drop 8).take (Header.decode (s.input.take 8)).Length) with
          | .error e => .error (.unmarshal e)
          | .ok msg => .ok msg),
       { s with input := (s.input.drop 8).drop (Header.decode (s.input.take 8)).Length }) := by
  have hlen2 : (Header.decode (s.input.take 8)).Length ≤ (s.input.drop 8).length := by
    simpa using hlen
  simp only [Protocol.Read, Protocol.header, Stream.ReadFull, h8, if_true, hlen2]
  cases builders proto (Header.decode (s.input.take 8)).TypeCode with
  | none => rfl
  | some builder =>
    simp only
    cases builder (Header.decode (s.input.take 8))
        ((s.input.drop 8).take (Header.decode (s.input.take 8)).Length) <;> rfl

/-- A stream with fewer than eight bytes: the header read fails. -/
theorem Read_short_header {P : Type} (proto : ProtoLib P) (s : Stream)
    (h8 : s.input.length < 8) :
    (Protocol.Read proto s).1 =
      .error (.headerRead (if s.input.length = 0 then .EOF else .ErrUnexpectedEOF)) := by
  have h : ¬ 8 ≤ s.input.length := by omega
  simp only [Protocol.Read, Protocol.header, Stream.ReadFull, h, if_false]
  by_cases h0 : s.input.length = 0 <;> simp [h0]

/-- A full header followed by fewer bytes than it announces: the body read
fails. -/
theorem Read_short_body {P : Type} (proto : ProtoLib P) (s : Stream)
    (h8 : 8 ≤ s.input.length)
    (hlen : s.input.length - 8 < (Header.decode (s.input.take 8)).Length) :
    (Protocol.Read proto s).1 =
      .error (.bodyRead (if s.input.length = 8 then .EOF else .ErrUnexpectedEOF)) := by
  have hlen2 : ¬ (Header.decode (s.input.take 8)).Length ≤ (s.input.drop 8).length := by
    simp only [List.length_drop]; omega
  simp only [Protocol.Read, Protocol.header, Stream.ReadFull, h8, if_true, hlen2, if_false]
  by_cases h0 : s.input.length = 8
  · simp [h0]
  · have : s.input.length - 8 ≠ 0 := by omega
    simp [h0, this]

/-- A stream write that succeeds appends all of its bytes and nothing else. -/
theorem stream_write_ok (s s1 : Stream) (bs : Bytes)
    (h : (s.Write bs).1 = .ok ()) (hs : (s.Write bs).2 = s1) :
    s1.output = s.output ++ bs ∧ s1.input = s.input := by
  subst hs
  unfold Stream.Write at h ⊢
  cases hr : s.room with
  | none => simp
  | some r =>
    simp only [hr] at h ⊢
    by_cases hb : bs.length ≤ r
    · simp [hb]
    · simp [hb] at h

/-- A successful `Write` was of a supported variant whose payload serialized
to at most `MaxUint32` bytes, and appended the header and then the payload. -/
theorem Write_ok {P : Type} (proto : ProtoLib P) (s s1 : Stream)
    (message : ProtoMessage P) (flag : Nat)
    (hW : Protocol.Write proto s message flag = (.ok (), s1)) :
    ∃ typ p, typeOf message.kind = some typ ∧ proto.Marshal message = .ok p ∧
      p.length ≤ MaxUint32 ∧ s1.input = s.input ∧
      s1.output = s.output ++
        ((Header.mk typ flag (p.length % 4294967296)).encode ++ p) := by
  unfold Protocol.Write at hW
  cases ht : typeOf message.kind with
  | none => simp [ht] at hW
  | some typ =>
    cases hm : proto.Marshal message with
    | error e => simp [ht, hm] at hW
    | ok p =>
      simp only [ht, hm] at hW
      by_cases hbig : p.length > MaxUint32
      · simp [hbig] at hW
      · simp only [hbig, if_false] at hW
        refine ⟨typ, p, rfl, rfl, by omega, ?_⟩
        generalize hh : Header.mk typ flag (p.length % 4294967296) = hdr at hW
        cases h1 : s.Write hdr.encode with
        | mk r1 t1 =>
          cases r1 with
          | error e => simp [h1] at hW
          | ok u =>
            simp only [h1] at hW
            cases h2 : t1.Write p with
            | mk r2 t2 =>
              cases r2 with
              | error e => simp [h2] at hW
              | ok v =>
                simp only [h2, Prod.mk.injEq, true_and] at hW
                subst hW
                have a1 := stream_write_ok s t1 hdr.encode (by rw [h1]) (by rw [h1])
                have a2 := stream_write_ok t1 t2 p (by rw [h2]) (by rw [h2])
                rw [a2.1, a1.1, a2.2, a1.2, List.append_assoc]
                exact ⟨rfl, rfl⟩

/-- On a stream whose writer never fails, `Write` of a supported variant
whose payload fits succeeds. -/
theorem Write_unlimited {P : Type} (proto : ProtoLib P) (s : Stream)
    (message : ProtoMessage P) (flag typ : Nat) (p : Bytes)
    (hroom : s.room = none) (ht : typeOf message.kind = some typ)
    (hm : proto.Marshal message = .ok p) (hp : p.length ≤ MaxUint32) :
    Protocol.Write proto s message flag =
      (.ok (), { s with output := s.output ++
        (Header.mk typ flag (p.length % 4294967296)).encode ++ p }) := by
  have hbig : ¬ p.length > MaxUint32 := by omega
  simp [Protocol.Write, ht, hm, hbig, Stream.Write, hroom]

/-- `Read` on a stream that starts with the encoding of header `h` followed
by a payload `p` of the announced length. -/
theorem Read_frame {P : Type} (proto : ProtoLib P) (s : Stream) (h : Header)
    (p rest : Bytes) (hT : h.TypeCode < 65536) (hF : h.Flag < 65536)
    (hL : h.Length = p.length) (hp : p.length < 4294967296)
    (hin : s.input = h.encode ++ p ++ rest) :
    Protocol.Read proto s =
      ((match builders proto h.TypeCode with
        | none => .error (.unknownMessageType h.TypeCode)
        | some builder =>
          match builder h p with
          | .error e => .error (.unmarshal e)
          | .ok msg => .ok msg),
       { s with input := rest }) := by
  have hl := encode_length h
  have htake : s.input.take 8 = h.encode := by
    rw [hin, List.append_assoc, ← hl, List.take_left]
  have hdrop : s.input.drop 8 = p ++ rest := by
    rw [hin, List.append_assoc, ← hl, List.drop_left]
  have hdec : Header.decode (s.input.take 8) = h := by
    rw [htake]; exact decode_encode h hT hF (by omega)
  have h8 : 8 ≤ s.input.length := by
    rw [hin]; simp only [List.length_append, hl]; omega
  have hlen : (Header.decode (s.input.take 8)).Length ≤ s.input.length - 8 := by
    rw [hdec, hin]; simp only [List.length_append, hl]; omega
  rw [Read_complete proto s h8 hlen, hdec, hdrop, hL, List.take_left, List.drop_left]

/-- Every type code `Write` derives fits in sixteen bits. -/
theorem typeOf_lt (k : ProtoKind) (t : Nat) (h : typeOf k = some t) : t < 65536 := by
  cases k <;> simp [typeOf] at h <;> subst h <;> decide

/-- The dispatch table maps the type code of every variant `Write` lists,
other than suspension, error and end, back to that variant. -/
theorem lookup_typeOf (k : ProtoKind) (t : Nat) (h : typeOf k = some t)
    (hS : k ≠ .SuspensionMessage) (hE : k ≠ .ErrorMessage) (hEnd : k ≠ .EndMessage) :
    builderKeys.lookup t = some k := by
  cases k <;> simp [typeOf] at h hS hE hEnd <;> subst h <;> rfl

/-! ## C1: frame round-trip -/

/-- C1, counterexample: an end message is a variant `Write` supports; `Write`
produces the frame `00 05 00 00 00 00 00 00` for it, and `Read` on exactly
these bytes returns the unknown-message-type error instead of the message. -/
theorem roundtrip_fails_for_end :
    Protocol.Write rawProto (Stream.ofInput []) ⟨.EndMessage, []⟩ 0 =
        (.ok (), { input := [], output := [0, 5, 0, 0, 0, 0, 0, 0], room := none }) ∧
      (Protocol.Read rawProto (Stream.ofInput [0, 5, 0, 0, 0, 0, 0, 0])).1 =
        .error (.unknownMessageType 5) := by
  constructor <;> rfl

/-- C1, amended: for every variant `Write` lists other than suspension, error
and end, every 16-bit flag word, and a protobuf library that decodes what it
encoded for this message, `Read` on exactly the bytes a successful `Write`
appended returns, without error, a message of the same variant whose type
code is the one `Write` derived, whose flags are the flag word, whose length
field is the payload length and whose payload is the written message; it
consumes all of the bytes. -/
theorem write_read_roundtrip {P : Type} (proto : ProtoLib P) (s s1 : Stream)
    (message : ProtoMessage P) (flag : Nat) (hflag : flag < 65536)
    (hS : message.kind ≠ .SuspensionMessage) (hE : message.kind ≠ .ErrorMessage)
    (hEnd : message.kind ≠ .EndMessage)
    (hproto : ∀ p, proto.Marshal message = .ok p →
      proto.Unmarshal message.kind p = .ok message.body)
    (hW : Protocol.Write proto s message flag = (.ok (), s1)) :
    ∃ msg p, proto.Marshal message = .ok p ∧
      Protocol.Read proto (Stream.ofInput (s1.output.drop s.output.length)) =
        (.ok msg, Stream.ofInput []) ∧
      typeOf message.kind = some msg.Type ∧ msg.Flags = flag ∧
      msg.Header.Length = p.length ∧ msg.Payload = message.body ∧
      msg.kind = message.kind := by
  obtain ⟨typ, p, ht, hm, hp, -, hout⟩ := Write_ok proto s s1 message flag hW
  have hpl : p.length < 4294967296 := by unfold MaxUint32 at hp; omega
  have hmod : p.length % 4294967296 = p.length := Nat.mod_eq_of_lt hpl
  rw [hmod] at hout
  have hin : (Stream.ofInput (s1.output.drop s.output.length)).input =
      (Header.mk typ flag p.length).encode ++ p ++ [] := by
    simp [Stream.ofInput, hout]
  have hr := Read_frame proto (Stream.ofInput (s1.output.drop s.output.length))
    (Header.mk typ flag p.length) p [] (typeOf_lt _ _ ht) hflag rfl hpl hin
  have hb : builders proto typ = some (builderOf proto message.kind) := by
    simp [builders, lookup_typeOf _ _ ht hS hE hEnd]
  refine ⟨⟨message.kind, Header.mk typ flag p.length, message.body⟩, p, hm, ?_, ht, rfl,
    rfl, rfl, rfl⟩
  rw [hr]
  simp [hb, builderOf, hproto p hm, Stream.ofInput]

/-- C1, witness: a call entry with payload `01 02 03` and flag word `0x8001`
written to an empty stream and read back. -/
theorem write_read_roundtrip_witness :
    ∃ msg p, rawProto.Marshal ⟨.CallEntryMessage, [1, 2, 3]⟩ = .ok p ∧
      Protocol.Read rawProto (Stream.ofInput [12, 1, 128, 1, 0, 0, 0, 3, 1, 2, 3]) =
        (.ok msg, Stream.ofInput []) ∧
      typeOf ProtoKind.CallEntryMessage = some msg.Type ∧ msg.Flags = 0x8001 ∧
      msg.Header.Length = p.length ∧ msg.Payload = [1, 2, 3] ∧
      msg.kind = .CallEntryMessage :=
  write_read_roundtrip rawProto (Stream.ofInput [])
    (Stream.mk [] [12, 1, 128, 1, 0, 0, 0, 3, 1, 2, 3] none)
    ⟨.CallEntryMessage, [1, 2, 3]⟩ 0x8001 (by decide) (by decide) (by decide) (by decide)
    (fun _ h => by cases h; rfl) (by rfl)

/-! ## C5: frame layout on write -/

/-- C5: for a message of a variant `Write` lists (type code `typ`) whose
serialized payload `p` has at most `2^32 - 1` bytes and a 16-bit flag word
`flag`, a successful `Write` appends to the stream exactly `8 + len(p)`
bytes: `typ` as a big-endian u16, `flag` as a big-endian u16, `len(p)` as a
big-endian u32 whose value is `len(p)` itself (not truncated), and then `p`
unchanged; and on a stream whose writer never fails `Write` does succeed. -/
theorem Write_frame_layout {P : Type} (proto : ProtoLib P) (s : Stream)
    (message : ProtoMessage P) (flag typ : Nat) (p : Bytes)
    (ht : typeOf message.kind = some typ) (hm : proto.Marshal message = .ok p)
    (hp : p.length ≤ 4294967295) (hflag : flag < 65536) :
    ((Protocol.Write proto s message flag).1 = .ok () →
      (Protocol.Write proto s message flag).2.output =
          s.output ++ (putUint16 typ ++ putUint16 flag ++ putUint32 p.length ++ p) ∧
        (Protocol.Write proto s message flag).2.output.length =
          s.output.length + (8 + p.length)) ∧
      bigEndian (putUint16 typ) = typ ∧ bigEndian (putUint16 flag) = flag ∧
      bigEndian (putUint32 p.length) = p.length ∧
      (s.room = none → (Protocol.Write proto s message flag).1 = .ok ()) := by
  have hpl : p.length < 4294967296 := by omega
  refine ⟨?_, bigEndian_putUint16 _ (typeOf_lt _ _ ht), bigEndian_putUint16 _ hflag,
    bigEndian_putUint32 _ hpl, ?_⟩
  · intro hok
    obtain ⟨typ1, p1, ht1, hm1, -, -, hout⟩ :=
      Write_ok proto s (Protocol.Write proto s message flag).2 message flag
        (Prod.ext hok rfl)
    rw [ht] at ht1
    rw [hm] at hm1
    cases ht1
    cases hm1
    rw [Nat.mod_eq_of_lt hpl] at hout
    rw [hout]
    constructor
    · simp [Header.encode]
    · simp only [List.length_append, encode_length]
  · intro hroom
    rw [Write_unlimited proto s message flag typ p hroom ht hm (by unfold MaxUint32; omega)]

/-- C5, witness: a call entry with payload `01 02 03` and flag word `0x8001`
written to an empty stream gives `0C 01 80 01 00 00 00 03 01 02 03`. -/
theorem Write_frame_layout_witness :
    ((Protocol.Write rawProto (Stream.ofInput []) ⟨.CallEntryMessage, [1, 2, 3]⟩ 0x8001).1 =
        .ok () →
      (Protocol.Write rawProto (Stream.ofInput []) ⟨.CallEntryMessage, [1, 2, 3]⟩ 0x8001).2.output =
          [] ++ ([12, 1] ++ [128, 1] ++ [0, 0, 0, 3] ++ [1, 2, 3]) ∧
        (Protocol.Write rawProto (Stream.ofInput [])
          ⟨.CallEntryMessage, [1, 2, 3]⟩ 0x8001).2.output.length = 0 + (8 + 3)) ∧
      bigEndian [12, 1] = 0x0C01 ∧ bigEndian [128, 1] = 0x8001 ∧
      bigEndian [0, 0, 0, 3] = 3 ∧
      ((Stream.ofInput []).room = none →
        (Protocol.Write rawProto (Stream.ofInput [])
          ⟨.CallEntryMessage, [1, 2, 3]⟩ 0x8001).1 = .ok ()) :=
  Write_frame_layout rawProto (Stream.ofInput []) ⟨.CallEntryMessage, [1, 2, 3]⟩ 0x8001
    0x0C01 [1, 2, 3] (by rfl) (by rfl) (by decide) (by decide)

/-! ## C6: type codes -/

/-- C6: the type code `Write` derives from each of the seventeen variants
(`typeOf`) is the one of the spec's table, the derivation is injective, and
the constants for completion and entry-ack are `0x0001` and `0x0004`. -/
theorem typeOf_table :
    (typeOf .StartMessage = some 0x0000 ∧ typeOf .SuspensionMessage = some 0x0002 ∧
      typeOf .ErrorMessage = some 0x0003 ∧ typeOf .EndMessage = some 0x0005 ∧
      typeOf .InputEntryMessage = some 0x0400 ∧ typeOf .OutputEntryMessage = some 0x0401 ∧
      typeOf .GetStateEntryMessage = some 0x0800 ∧
      typeOf .SetStateEntryMessage = some 0x0801 ∧
      typeOf .ClearStateEntryMessage = some 0x0802 ∧
      typeOf .ClearAllStateEntryMessage = some 0x0803 ∧
      typeOf .GetStateKeysEntryMessage = some 0x0804 ∧
      typeOf .SleepEntryMessage = some 0x0C00 ∧ typeOf .CallEntryMessage = some 0x0C01 ∧
      typeOf .OneWayCallEntryMessage = some 0x0C02 ∧
      typeOf .AwakeableEntryMessage = some 0x0C03 ∧
      typeOf .CompleteAwakeableEntryMessage = some 0x0C04 ∧
      typeOf .RunEntryMessage = some 0x0C05) ∧
    (∀ a b : ProtoKind, ∀ t : Nat, typeOf a = some t → typeOf b = some t → a = b) ∧
    CompletionMessageType = 0x0001 ∧ EntryAckMessageType = 0x0004 := by
  refine ⟨by decide, ?_, by decide, by decide⟩
  intro a b t ha hb
  cases a <;> simp [typeOf] at ha <;> subst ha <;> cases b <;> simp [typeOf] at hb <;>
    first
      | rfl
      | (exfalso; revert hb; decide)

/-! ## C7: the dispatch table -/

/-- C7, counterexample: the error type code `0x0003` is listed in section 6
but has no entry in `builders`, and a complete error frame with an empty
payload is rejected by `Read` as an unknown message type. -/
theorem builders_lacks_error_code :
    (builderKeys.lookup 0x0003 = none ∧ (builders rawProto 0x0003).isNone = true) ∧
      Protocol.Read rawProto (Stream.ofInput [0, 3, 0, 0, 0, 0, 0, 0]) =
        (.error (.unknownMessageType 3), Stream.ofInput []) := by
  refine ⟨⟨by rfl, by rfl⟩, by rfl⟩

/-- C7, amended: `builders` has an entry for every type code of section 6
except suspension `0x0002`, error `0x0003` and end `0x0005`, that is for
start, completion, entry-ack, input, output, the five state codes and the
six syscall codes; a complete frame carrying one of these sixteen codes is
never rejected as an unknown message type, and when its payload decodes it
is parsed into a message holding the frame header and the decoded payload. -/
theorem builders_cover {P : Type} (proto : ProtoLib P) (s : Stream)
    (h8 : 8 ≤ s.input.length)
    (hlen : (Header.decode (s.input.take 8)).Length ≤ s.input.length - 8)
    (hcode : (Header.decode (s.input.take 8)).TypeCode ∈
      [0x0000, 0x0001, 0x0004, 0x0400, 0x0401, 0x0800, 0x0801, 0x0802, 0x0803, 0x0804,
        0x0C00, 0x0C01, 0x0C02, 0x0C03, 0x0C04, 0x0C05]) :
    (builders proto (Header.decode (s.input.take 8)).TypeCode).isSome = true ∧
      (∀ t, (Protocol.Read proto s).1 ≠ .error (.unknownMessageType t)) ∧
      ∃ k, builderKeys.lookup (Header.decode (s.input.take 8)).TypeCode = some k ∧
        ∀ payload,
          proto.Unmarshal k ((s.input.drop 8).take (Header.decode (s.input.take 8)).Length) =
            .ok payload →
          (Protocol.Read proto s).1 =
            .ok ⟨k, Header.decode (s.input.take 8), payload⟩ := by
  have hall : ∀ t ∈ [0x0000, 0x0001, 0x0004, 0x0400, 0x0401, 0x0800, 0x0801, 0x0802, 0x0803,
      0x0804, 0x0C00, 0x0C01, 0x0C02, 0x0C03, 0x0C04, 0x0C05],
      (builderKeys.lookup t).isSome = true := by decide
  have hsome := hall _ hcode
  obtain ⟨k, hk⟩ := Option.isSome_iff_exists.mp hsome
  have hb : builders proto (Header.decode (s.input.take 8)).TypeCode =
      some (builderOf proto k) := by
    simp [builders, hk]
  rw [Read_complete proto s h8 hlen, hb]
  refine ⟨rfl, ?_, k, hk, ?_⟩
  · intro t
    simp only [builderOf]
    cases proto.Unmarshal k
      ((s.input.drop 8).take (Header.decode (s.input.take 8)).Length) <;> simp
  · intro payload hpay
    simp [builderOf, hpay]

/-- C7, witness: a complete call-entry frame `0C 01 00 00 00 00 00 02 07 08`
is parsed into a call entry message with payload `07 08`. -/
theorem builders_cover_witness :
    (builders rawProto 0x0C01).isSome = true ∧
      (∀ t, (Protocol.Read rawProto (Stream.ofInput [12, 1, 0, 0, 0, 0, 0, 2, 7, 8])).1 ≠
        .error (.unknownMessageType t)) ∧
      ∃ k, builderKeys.lookup 0x0C01 = some k ∧
        ∀ payload, rawProto.Unmarshal k [7, 8] = .ok payload →
          (Protocol.Read rawProto (Stream.ofInput [12, 1, 0, 0, 0, 0, 0, 2, 7, 8])).1 =
            .ok ⟨k, ⟨0x0C01, 0, 2⟩, payload⟩ :=
  builders_cover rawProto (Stream.ofInput [12, 1, 0, 0, 0, 0, 0, 2, 7, 8]) (by decide)
    (by decide) (by decide)

/-! ## C8: unknown type code on read -/

/-- C8: on every stream that starts with a complete frame (eight header bytes
followed by at least `Length` payload bytes) whose type code has no entry in
`builders`, `Read` returns the unknown-message-type error for that code and
no message, whatever the flag word and the payload are, having consumed the
frame; and whenever `Read` returns an unknown-message-type error, the stream
started with a complete frame whose type code is the reported one and has no
entry in `builders`. -/
theorem Read_unknown_type {P : Type} (proto : ProtoLib P) (s : Stream) :
    (8 ≤ s.input.length →
      (Header.decode (s.input.take 8)).Length ≤ s.input.length - 8 →
      builders proto (Header.decode (s.input.take 8)).TypeCode = none →
      Protocol.Read proto s =
        (.error (.unknownMessageType (Header.decode (s.input.take 8)).TypeCode),
          { s with input := (s.input.drop 8).drop (Header.decode (s.input.take 8)).Length })) ∧
    (∀ t, (Protocol.Read proto s).1 = .error (.unknownMessageType t) →
      8 ≤ s.input.length ∧
      (Header.decode (s.input.take 8)).Length ≤ s.input.length - 8 ∧
      t = (Header.decode (s.input.take 8)).TypeCode ∧ builders proto t = none) := by
  constructor
  · intro h8 hlen hnone
    rw [Read_complete proto s h8 hlen, hnone]
  · intro t ht
    by_cases h8 : 8 ≤ s.input.length
    · by_cases hlen : (Header.decode (s.input.take 8)).Length ≤ s.input.length - 8
      · rw [Read_complete proto s h8 hlen] at ht
        cases hb : builders proto (Header.decode (s.input.take 8)).TypeCode with
        | none =>
          simp only [hb, Except.error.injEq, Error.unknownMessageType.injEq] at ht
          exact ⟨h8, hlen, ht.symm, ht ▸ hb⟩
        | some builder =>
          simp only [hb] at ht
          cases hm : builder (Header.decode (s.input.take 8))
            ((s.input.drop 8).take (Header.decode (s.input.take 8)).Length) <;>
            simp [hm] at ht
      · rw [Read_short_body proto s h8 (by omega)] at ht
        simp at ht
    · rw [Read_short_header proto s (by omega)] at ht
      simp at ht

/-- C8, witness: a complete frame with the unlisted type code `0x0006`, flag
word `0x8001` and payload `09`. -/
theorem Read_unknown_type_witness :
    Protocol.Read rawProto (Stream.ofInput [0, 6, 128, 1, 0, 0, 0, 1, 9, 4]) =
      (.error (.unknownMessageType 6), Stream.ofInput [4]) :=
  (Read_unknown_type rawProto (Stream.ofInput [0, 6, 128, 1, 0, 0, 0, 1, 9, 4])).1
    (by decide) (by decide) (by rfl)

/-! ## C9: short reads -/

/-- C9: if the stream holds fewer than eight bytes, `Read` returns the header
read failure wrapping the I/O error (`EOF` on an empty stream, otherwise
`ErrUnexpectedEOF`); if it holds a full header announcing `Length` payload
bytes but fewer than `Length` bytes after it, `Read` returns the body read
failure wrapping the I/O error. In both cases no message is returned and,
whatever the type code in the header is, the error is not the
unknown-message-type error. -/
theorem Read_short {P : Type} (proto : ProtoLib P) (s : Stream) :
    (s.input.length < 8 →
      (Protocol.Read proto s).1 =
          .error (.headerRead (if s.input.length = 0 then .EOF else .ErrUnexpectedEOF)) ∧
        ∀ t, (Protocol.Read proto s).1 ≠ .error (.unknownMessageType t)) ∧
    (8 ≤ s.input.length →
      s.input.length - 8 < (Header.decode (s.input.take 8)).Length →
      (Protocol.Read proto s).1 =
          .error (.bodyRead (if s.input.length = 8 then .EOF else .ErrUnexpectedEOF)) ∧
        ∀ t, (Protocol.Read proto s).1 ≠ .error (.unknownMessageType t)) := by
  constructor
  · intro h8
    rw [Read_short_header proto s h8]
    exact ⟨rfl, fun t => by simp⟩
  · intro h8 hlen
    rw [Read_short_body proto s h8 hlen]
    exact ⟨rfl, fun t => by simp⟩

/-- C9, witness: a frame of the unlisted type `0x0006` announcing four payload
bytes of which only two arrived is reported as a failed body read. -/
theorem Read_short_witness :
    (Protocol.Read rawProto (Stream.ofInput [0, 6, 0, 0, 0, 0, 0, 4, 1, 2])).1 =
        .error (.bodyRead .ErrUnexpectedEOF) ∧
      ∀ t, (Protocol.Read rawProto (Stream.ofInput [0, 6, 0, 0, 0, 0, 0, 4, 1, 2])).1 ≠
        .error (.unknownMessageType t) :=
  (Read_short rawProto (Stream.ofInput [0, 6, 0, 0, 0, 0, 0, 4, 1, 2])).2
    (by decide) (by decide)

/-! ## C10: unsupported outbound variant -/

/-- C10: for every message whose variant is not one of the seventeen variants
`Write` lists, `Write` returns the error of its default branch and leaves
the stream as it was: no byte of a header or payload is written. -/
theorem Write_unsupported {P : Type} (proto : ProtoLib P) (s : Stream)
    (message : ProtoMessage P) (flag : Nat)
    (h : message.kind ∉ [ProtoKind.StartMessage, .SuspensionMessage, .InputEntryMessage,
      .OutputEntryMessage, .ErrorMessage, .EndMessage, .GetStateEntryMessage,
      .SetStateEntryMessage, .ClearStateEntryMessage, .ClearAllStateEntryMessage,
      .GetStateKeysEntryMessage, .SleepEntryMessage, .CallEntryMessage,
      .OneWayCallEntryMessage, .AwakeableEntryMessage, .CompleteAwakeableEntryMessage,
      .RunEntryMessage]) :
    Protocol.Write proto s message flag = (.error .unknownOutbound, s) ∧
      (Protocol.Write proto s message flag).2.output = s.output := by
  have ht : typeOf message.kind = none := by
    cases hk : message.kind <;> simp [hk] at h <;> rfl
  simp [Protocol.Write, ht]

/-- C10, witness: a completion message is refused and nothing is written. -/
theorem Write_unsupported_witness :
    Protocol.Write rawProto (Stream.ofInput []) ⟨.CompletionMessage, [1, 2]⟩ 0 =
        (.error .unknownOutbound, Stream.ofInput []) ∧
      (Protocol.Write rawProto (Stream.ofInput []) ⟨.CompletionMessage, [1, 2]⟩ 0).2.output =
        [] :=
  Write_unsupported rawProto (Stream.ofInput []) ⟨.CompletionMessage, [1, 2]⟩ 0 (by decide)

end Wire

/-! # Properties of call and send -/

namespace State

open Wire (Bytes)

/-- In replay mode `replayOrNew` never runs `new_fn`: its outcome is decided
by the journaled entry and `match_fn`, and no frame is written. -/
theorem replayOrNew_replay {M O : Type} (m : Machine) (expected : Entry → Option M)
    (match_fn : M → Except Error O) (new_fn : Machine → Except Error O × Machine)
    (h : m.current_index ≤ m.replay_count) :
    replayOrNew m expected match_fn new_fn =
        ((match journalAt m.journal m.current_index with
          | none => .error .protocolViolation
          | some entry =>
            match expected entry with
            | none => .error .entryTypeMismatch
            | some e => match_fn e),
         { m with current_index := m.current_index + 1 }) := by
  simp only [replayOrNew, h, if_true]
  cases journalAt m.journal m.current_index with
  | none => rfl
  | some entry =>
    simp only
    cases expected entry with
    | none => rfl
    | some e =>
      simp only
      cases match_fn e <;> rfl

/-- In processing mode `replayOrNew` runs `new_fn` on the machine with the cursor
advanced. -/
theorem replayOrNew_new {M O : Type} (m : Machine) (expected : Entry → Option M)
    (match_fn : M → Except Error O) (new_fn : Machine → Except Error O × Machine)
    (h : m.replay_count < m.current_index) :
    (replayOrNew m expected match_fn new_fn).1 =
        (new_fn { m with current_index := m.current_index + 1 }).1 ∧
      (replayOrNew m expected match_fn new_fn).2.written =
        (new_fn { m with current_index := m.current_index + 1 }).2.written := by
  have h1 : ¬ m.current_index ≤ m.replay_count := by omega
  simp only [replayOrNew, h1, if_false]
  cases hn : new_fn { m with current_index := m.current_index + 1 } with
  | mk r m2 =>
    cases r <;> exact ⟨rfl, rfl⟩

/-! ## C2: replay matching of call -/

/-- C2: the match function `doCall` hands to `replayOrNew` accepts a
journaled call entry, returning that same entry, if and only if the entry's
service name, key and handler name equal `service`, `key` and `method` and
its parameter bytes equal `params`; in every other case it returns no entry
and `errEntryMismatch`. -/
theorem doCall_match_iff (service key method : String) (params : Bytes)
    (entry : CallEntryMessage) :
    (doCall_match service key method params entry = .ok entry ↔
      entry.ServiceName = service ∧ entry.Key = key ∧ entry.HandlerName = method ∧
        entry.Parameter = params) ∧
    (¬ (entry.ServiceName = service ∧ entry.Key = key ∧ entry.HandlerName = method ∧
        entry.Parameter = params) →
      doCall_match service key method params entry = .error .errEntryMismatch) ∧
    (∀ e, doCall_match service key method params entry = .ok e → e = entry) := by
  refine ⟨?_, ?_, ?_⟩
  · by_cases hc : entry.ServiceName = service ∧ entry.Key = key ∧
        entry.HandlerName = method ∧ entry.Parameter = params
    · obtain ⟨h1, h2, h3, h4⟩ := hc
      simp [doCall_match, h1, h2, h3, h4]
    · simp only [hc, iff_false]
      unfold doCall_match
      rw [if_pos]
      · simp
      · simp only [bne_iff_ne, ne_eq, Bool.or_eq_true, decide_eq_true_eq, Bool.not_eq_true',
          beq_eq_false_iff_ne]
        tauto
  · intro hc
    unfold doCall_match
    rw [if_pos]
    simp only [bne_iff_ne, ne_eq, Bool.or_eq_true, decide_eq_true_eq, Bool.not_eq_true',
      beq_eq_false_iff_ne]
    tauto
  · intro e he
    unfold doCall_match at he
    split at he
    · simp at he
    · simpa using he.symm

/-! ## C3: replay matching of send -/

/-- C3, counterexample: a journaled one-way call entry with invoke time 12345
is replayed by a send with the same service, key, method and parameter bytes
and delay 0, whose invoke time is 0: the match function of `sendCall` accepts
it instead of returning `errEntryMismatch`. -/
theorem sendCall_accepts_other_invokeTime :
    invokeTime 1700000000000000000 0 = 0 ∧
      sendCall_match "B" "k1" "m" [1, 2]
        { ServiceName := "B", HandlerName := "m", Parameter := [1, 2], Key := "k1",
          InvokeTime := 12345 } = .ok () := by
  refine ⟨by decide, by rfl⟩

/-- C3, amended: the match function `sendCall` hands to `replayOrNew` accepts
the journaled one-way call entry if and only if its service name, key,
handler name and parameter bytes equal those of the send being replayed, and
returns `errEntryMismatch` otherwise; the invoke time of the journaled entry
is not compared: changing it never changes the outcome. -/
theorem sendCall_match_iff (service key method : String) (params : Bytes)
    (entry : OneWayCallEntryMessage) :
    (sendCall_match service key method params entry = .ok () ↔
      entry.ServiceName = service ∧ entry.Key = key ∧ entry.HandlerName = method ∧
        entry.Parameter = params) ∧
    (¬ (entry.ServiceName = service ∧ entry.Key = key ∧ entry.HandlerName = method ∧
        entry.Parameter = params) →
      sendCall_match service key method params entry = .error .errEntryMismatch) ∧
    (∀ t : Nat, sendCall_match service key method params { entry with InvokeTime := t } =
      sendCall_match service key method params entry) := by
  refine ⟨?_, ?_, ?_⟩
  · by_cases hc : entry.ServiceName = service ∧ entry.Key = key ∧
        entry.HandlerName = method ∧ entry.Parameter = params
    · obtain ⟨h1, h2, h3, h4⟩ := hc
      simp [sendCall_match, h1, h2, h3, h4]
    · simp only [hc, iff_false]
      unfold sendCall_match
      rw [if_pos]
      · simp
      · simp only [bne_iff_ne, ne_eq, Bool.or_eq_true, decide_eq_true_eq, Bool.not_eq_true',
          beq_eq_false_iff_ne]
        tauto
  · intro hc
    unfold sendCall_match
    rw [if_pos]
    simp only [bne_iff_ne, ne_eq, Bool.or_eq_true, decide_eq_true_eq, Bool.not_eq_true',
      beq_eq_false_iff_ne]
    tauto
  · intro t
    rfl

/-- C3, witness: an entry that differs in the key is refused. -/
theorem sendCall_match_iff_witness :
    sendCall_match "B" "k1" "m" [1, 2]
      { ServiceName := "B", HandlerName := "m", Parameter := [1, 2], Key := "k2",
        InvokeTime := 0 } = .error .errEntryMismatch :=
  (sendCall_match_iff "B" "k1" "m" [1, 2]
    { ServiceName := "B", HandlerName := "m", Parameter := [1, 2], Key := "k2",
      InvokeTime := 0 }).2.1 (by decide)

/-! ## C4: replay determinism for call and send -/

/-- C4: while the cursor is at most the replay count, `doCall` and `sendCall`
do not run their new-entry function (whatever function is put in its place,
the outcome is the same) and the frames written stay as they were, whether
the match succeeds or fails. Once the cursor exceeds the replay count (so
always when the replay count is 0, entries being numbered from 1) and the
stream is open, each of them writes exactly one frame: `doCall` a call entry
and `sendCall` a one-way call entry, carrying the given service, key, method
and params, where the params of a send are the encoding of its body. -/
theorem replay_determinism {B : Type} (marshal : B → Except String Bytes) (m : Machine)
    (now : Int) (service key method : String) (params : Bytes) (body : B) (delay : Int) :
    (m.current_index ≤ m.replay_count →
      (∀ new_fn, replayOrNew m Entry.asCall (doCall_match service key method params) new_fn =
        m.doCall service key method params) ∧
      (m.doCall service key method params).2.written = m.written ∧
      (marshal body = .ok params → ∀ new_fn,
        replayOrNew m Entry.asOneWayCall (sendCall_match service key method params) new_fn =
          Machine.sendCall marshal m now service key method body delay) ∧
      (Machine.sendCall marshal m now service key method body delay).2.written =
        m.written) ∧
    (m.replay_count < m.current_index → m.closed = false →
      (m.doCall service key method params).1 =
        .ok ⟨service, method, params, key, none⟩ ∧
      (m.doCall service key method params).2.written =
        m.written ++ [Entry.call ⟨service, method, params, key, none⟩] ∧
      (marshal body = .ok params →
        (Machine.sendCall marshal m now service key method body delay).1 = .ok () ∧
        (Machine.sendCall marshal m now service key method body delay).2.written =
          m.written ++
            [Entry.oneWayCall ⟨service, method, params, key, invokeTime now delay⟩])) ∧
    (m.replay_count = 0 → 1 ≤ m.current_index → m.closed = false →
      (m.doCall service key method params).2.written =
        m.written ++ [Entry.call ⟨service, method, params, key, none⟩] ∧
      (marshal body = .ok params →
        (Machine.sendCall marshal m now service key method body delay).2.written =
          m.written ++
            [Entry.oneWayCall ⟨service, method, params, key, invokeTime now delay⟩])) := by
  have hnew : m.replay_count < m.current_index → m.closed = false →
      (m.doCall service key method params).1 =
        .ok ⟨service, method, params, key, none⟩ ∧
      (m.doCall service key method params).2.written =
        m.written ++ [Entry.call ⟨service, method, params, key, none⟩] ∧
      (marshal body = .ok params →
        (Machine.sendCall marshal m now service key method body delay).1 = .ok () ∧
        (Machine.sendCall marshal m now service key method body delay).2.written =
          m.written ++
            [Entry.oneWayCall ⟨service, method, params, key, invokeTime now delay⟩]) := by
    intro h hc
    have c := replayOrNew_new m Entry.asCall (doCall_match service key method params)
      (fun m1 => m1._doCall service key method params) h
    have d := replayOrNew_new m Entry.asOneWayCall
      (sendCall_match service key method params)
      (fun c1 => c1._sendCall now service key method params delay) h
    refine ⟨?_, ?_, ?_⟩
    · rw [Machine.doCall, c.1]
      simp [Machine._doCall, Machine.Write, hc]
    · rw [Machine.doCall, c.2]
      simp [Machine._doCall, Machine.Write, hc]
    · intro hbody
      simp only [Machine.sendCall, hbody]
      rw [d.1, d.2]
      simp [Machine._sendCall, Machine.Write, hc]
  refine ⟨?_, hnew, ?_⟩
  · intro h
    refine ⟨?_, ?_, ?_, ?_⟩
    · intro new_fn
      rw [Machine.doCall, replayOrNew_replay _ _ _ _ h, replayOrNew_replay _ _ _ _ h]
    · rw [Machine.doCall, replayOrNew_replay _ _ _ _ h]
    · intro hbody new_fn
      simp only [Machine.sendCall, hbody]
      rw [replayOrNew_replay _ _ _ _ h, replayOrNew_replay _ _ _ _ h]
    · unfold Machine.sendCall
      cases marshal body with
      | error e => rfl
      | ok ps =>
        simp only
        rw [replayOrNew_replay _ _ _ _ h]
  · intro h0 h1 hc
    have h := hnew (by omega) hc
    exact ⟨h.2.1, fun hbody => (h.2.2 hbody).2⟩

/-- C4, witness: a machine with one replayed call entry and cursor 1 replays
without writing; the same operations at cursor 2 each write one frame. -/
theorem replay_determinism_witness :
    ((Machine.doCall ⟨1, 1, [Entry.call ⟨"B", "m", [1], "k1", none⟩], [], false⟩
        "B" "k1" "m" [1]).2.written = [] ∧
      (Machine.sendCall (fun b : Bytes => .ok b)
        ⟨1, 1, [Entry.call ⟨"B", "m", [1], "k1", none⟩], [], false⟩
        7000000 "B" "k1" "m" [1] 5000000000).2.written = []) ∧
    ((Machine.doCall ⟨2, 1, [Entry.call ⟨"B", "m", [1], "k1", none⟩], [], false⟩
        "C" "k2" "m2" [9]).2.written = [] ++ [Entry.call ⟨"C", "m2", [9], "k2", none⟩] ∧
      (Machine.sendCall (fun b : Bytes => .ok b)
        ⟨2, 1, [Entry.call ⟨"B", "m", [1], "k1", none⟩], [], false⟩
        7000000 "C" "k2" "m2" [9] 5000000000).2.written =
        [] ++ [Entry.oneWayCall ⟨"C", "m2", [9], "k2", 5007⟩]) :=
  ⟨⟨((replay_determinism (fun b : Bytes => .ok b)
        ⟨1, 1, [Entry.call ⟨"B", "m", [1], "k1", none⟩], [], false⟩
        7000000 "B" "k1" "m" [1] [1] 5000000000).1 (by decide)).2.1,
      ((replay_determinism (fun b : Bytes => .ok b)
        ⟨1, 1, [Entry.call ⟨"B", "m", [1], "k1", none⟩], [], false⟩
        7000000 "B" "k1" "m" [1] [1] 5000000000).1 (by decide)).2.2.2⟩,
    ⟨((replay_determinism (fun b : Bytes => .ok b)
        ⟨2, 1, [Entry.call ⟨"B", "m", [1], "k1", none⟩], [], false⟩
        7000000 "C" "k2" "m2" [9] [9] 5000000000).2.1 (by decide) rfl).2.1,
      (((replay_determinism (fun b : Bytes => .ok b)
        ⟨2, 1, [Entry.call ⟨"B", "m", [1], "k1", none⟩], [], false⟩
        7000000 "C" "k2" "m2" [9] [9] 5000000000).2.1 (by decide) rfl).2.2 rfl).2⟩⟩

end State

/-! # Further properties of the codec -/

namespace Wire

/-- A successful lookup in an association list finds a pair of the list. -/
theorem mem_of_lookup (l : List (Nat × ProtoKind)) (t : Nat) (k : ProtoKind)
    (h : l.lookup t = some k) : (t, k) ∈ l := by
  induction l with
  | nil => simp at h
  | cons a l ih =>
    obtain ⟨a1, a2⟩ := a
    by_cases e : t = a1
    · subst e
      simp only [List.lookup_cons, beq_self_eq_true, Option.some.injEq] at h
      subst h
      exact List.mem_cons_self _ _
    · have e2 : (t == a1) = false := by simpa using e
      simp only [List.lookup_cons, e2] at h
      exact List.mem_cons_of_mem _ (ih h)

/-- Every key of the dispatch table fits in sixteen bits. -/
theorem builderKeys_lt (t : Nat) (k : ProtoKind) (h : builderKeys.lookup t = some k) :
    t < 65536 := by
  have hall : ∀ x ∈ builderKeys, x.1 < 65536 := by decide
  exact hall _ (mem_of_lookup _ _ _ h)

/-! ## C11: empty payload -/

/-- C11: for every type code `t` of the dispatch table and every 16-bit flag
word `f`, on a stream that starts with the header of type `t`, flags `f` and
length 0, `Read` hands the empty byte slice to the decoder of the wire
struct of `t` and, the empty payload decoding to the default value `d`,
succeeds: it returns a message of that type, with these flags, length 0 and
payload `d`, and has consumed exactly the eight header bytes. -/
theorem Read_empty_payload {P : Type} (proto : ProtoLib P) (s : Stream) (t f : Nat)
    (k : ProtoKind) (d : P) (rest : Bytes) (hf : f < 65536)
    (hk : builderKeys.lookup t = some k)
    (hin : s.input = putUint16 t ++ putUint16 f ++ [0, 0, 0, 0] ++ rest)
    (hd : proto.Unmarshal k [] = .ok d) :
    Protocol.Read proto s = (.ok ⟨k, ⟨t, f, 0⟩, d⟩, { s with input := rest }) ∧
      (Message.mk k ⟨t, f, 0⟩ d).Type = t ∧ (Message.mk k ⟨t, f, 0⟩ d).Flags = f ∧
      s.input.length = 8 + rest.length := by
  have hin2 : s.input = (Header.mk t f 0).encode ++ [] ++ rest := by
    rw [hin]
    have e0 : putUint32 0 = [0, 0, 0, 0] := by decide
    simp [Header.encode, e0]
  have hr := Read_frame proto s (Header.mk t f 0) [] rest (builderKeys_lt t k hk) hf rfl
    (by decide) hin2
  have hb : builders proto t = some (builderOf proto k) := by
    simp [builders, hk]
  refine ⟨?_, rfl, rfl, ?_⟩
  · rw [hr]
    simp [hb, builderOf, hd]
  · rw [hin]
    simp [putUint16]
    omega

/-- C11, witness: a completion frame `00 01 80 01 00 00 00 00` followed by one
more byte. -/
theorem Read_empty_payload_witness :
    Protocol.Read rawProto (Stream.ofInput [0, 1, 128, 1, 0, 0, 0, 0, 9]) =
        (.ok ⟨.CompletionMessage, ⟨1, 0x8001, 0⟩, []⟩, Stream.ofInput [9]) ∧
      (Message.mk ProtoKind.CompletionMessage ⟨1, 0x8001, 0⟩ ([] : Bytes)).Type = 1 ∧
      (Message.mk ProtoKind.CompletionMessage ⟨1, 0x8001, 0⟩ ([] : Bytes)).Flags = 0x8001 ∧
      (Stream.ofInput [0, 1, 128, 1, 0, 0, 0, 0, 9]).input.length = 8 + [9].length :=
  Read_empty_payload rawProto (Stream.ofInput [0, 1, 128, 1, 0, 0, 0, 0, 9]) 1 0x8001
    .CompletionMessage [] [9] (by decide) (by rfl) (by rfl) (by rfl)

/-! ## C12: flag bits -/

/-- The requires-ack test reads bit 15. -/
theorem Ack_eq_testBit (f : Nat) : Flag.Ack f = f.testBit 15 := by
  have hmask : FlagRequiresAck = 2 ^ 15 := by decide
  unfold Flag.Ack
  rw [hmask]
  cases hb : f.testBit 15 with
  | true =>
    have h1 : (f &&& 2 ^ 15).testBit 15 = true := by
      rw [Nat.testBit_and, hb, Nat.testBit_two_pow_self]; rfl
    have h2 : f &&& 2 ^ 15 ≠ 0 := by
      intro h0
      rw [h0, Nat.zero_testBit] at h1
      exact Bool.noConfusion h1
    simpa using h2
  | false =>
    have h2 : f &&& 2 ^ 15 = 0 := by
      apply Nat.eq_of_testBit_eq
      intro i
      rw [Nat.testBit_and, Nat.zero_testBit, Nat.testBit_two_pow]
      by_cases hi : 15 = i
      · subst hi; simp [hb]
      · simp [hi]
    rw [h2]
    rfl

/-- C12: for every flag word `f`, `Flag.Completed f` is bit 0 of `f` (true
exactly when `f` is odd) and `Flag.Ack f` is bit 15 of `f` (true exactly when
`f / 2^15` is odd), so each depends on its own bit only: two flag words that
agree on that bit give the same answer whatever their other bits are; and
`f AND VersionMask` is below 1024 and equals `f` modulo 1024, that is bits 0
to 9 of `f`. -/
theorem flag_bits (f : Nat) :
    (Flag.Completed f = f.testBit 0 ∧ (Flag.Completed f = true ↔ f % 2 = 1)) ∧
    (Flag.Ack f = f.testBit 15 ∧ (Flag.Ack f = true ↔ f / 32768 % 2 = 1)) ∧
    (∀ g : Nat, g.testBit 0 = f.testBit 0 → Flag.Completed g = Flag.Completed f) ∧
    (∀ g : Nat, g.testBit 15 = f.testBit 15 → Flag.Ack g = Flag.Ack f) ∧
    f &&& VersionMask < 1024 ∧ f &&& VersionMask = f % 1024 ∧
    (∀ i : Nat, (f &&& VersionMask).testBit i = (decide (i < 10) && f.testBit i)) := by
  have hc : ∀ x : Nat, Flag.Completed x = x.testBit 0 := by
    intro x
    have h2 : x % 2 = 0 ∨ x % 2 = 1 := by omega
    unfold Flag.Completed FlagCompleted
    rw [Nat.and_one_is_mod, Nat.testBit_zero]
    rcases h2 with h | h <;> simp [h]
  have hv : f &&& VersionMask = f % 1024 := by
    have hm : VersionMask = 2 ^ 10 - 1 := by decide
    rw [hm, Nat.and_pow_two_sub_one_eq_mod]
  refine ⟨⟨hc f, ?_⟩, ⟨Ack_eq_testBit f, ?_⟩, ?_, ?_, ?_, hv, ?_⟩
  · rw [hc f, Nat.testBit_zero]; simp
  · rw [Ack_eq_testBit f, Nat.testBit_to_div_mod]; simp
  · intro g hg
    rw [hc g, hc f, hg]
  · intro g hg
    rw [Ack_eq_testBit g, Ack_eq_testBit f, hg]
  · rw [hv]; omega
  · intro i
    rw [hv]
    have h10 : (1024 : Nat) = 2 ^ 10 := by decide
    rw [h10, Nat.testBit_mod_two_pow]

/-! ## C15: sequential framing -/

/-- A successful `Read` consumed the eight header bytes and the `Length`
payload bytes of the frame at the head of the stream and nothing else, and
the message it returns holds the header it decoded. -/
theorem Read_ok_consumes {P : Type} (proto : ProtoLib P) (s s1 : Stream)
    (msg : Message P) (h : Protocol.Read proto s = (.ok msg, s1)) :
    8 + msg.Header.Length ≤ s.input.length ∧
      s1.input = s.input.drop (8 + msg.Header.Length) ∧ s1.output = s.output ∧
      msg.Header = Header.decode (s.input.take 8) := by
  by_cases h8 : 8 ≤ s.input.length
  · by_cases hlen : (Header.decode (s.input.take 8)).Length ≤ s.input.length - 8
    · rw [Read_complete proto s h8 hlen] at h
      cases hb : builders proto (Header.decode (s.input.take 8)).TypeCode with
      | none => simp [hb] at h
      | some builder =>
        obtain ⟨k, -, hk⟩ := Option.map_eq_some'.mp hb
        subst hk
        simp only [hb, builderOf] at h
        cases hu : proto.Unmarshal k
            ((s.input.drop 8).take (Header.decode (s.input.take 8)).Length) with
        | error e => simp [hu] at h
        | ok payload =>
          simp only [hu, Prod.mk.injEq, Except.ok.injEq] at h
          obtain ⟨hm, hs⟩ := h
          subst hm
          subst hs
          refine ⟨by simp only; omega, ?_, rfl, rfl⟩
          simp only [List.drop_drop]
    · have hr := Read_short_body proto s h8 (by omega)
      rw [h] at hr
      simp at hr
  · have hr := Read_short_header proto s (by omega)
    rw [h] at hr
    simp at hr

/-- C15, counterexample: an end message and a call entry are both variants
`Write` supports; written one after the other they give the bytes
`00 05 00 00 00 00 00 00 0C 01 00 00 00 00 00 01 07`, and the first `Read` on
these bytes returns the unknown-message-type error, not the frame of the end
message. -/
theorem sequential_read_fails_for_end :
    Protocol.Write rawProto (Stream.ofInput []) ⟨.EndMessage, []⟩ 0 =
        (.ok (), Stream.mk [] [0, 5, 0, 0, 0, 0, 0, 0] none) ∧
      Protocol.Write rawProto (Stream.mk [] [0, 5, 0, 0, 0, 0, 0, 0] none)
          ⟨.CallEntryMessage, [7]⟩ 0 =
        (.ok (), Stream.mk [] [0, 5, 0, 0, 0, 0, 0, 0, 12, 1, 0, 0, 0, 0, 0, 1, 7] none) ∧
      Protocol.Read rawProto
          (Stream.ofInput [0, 5, 0, 0, 0, 0, 0, 0, 12, 1, 0, 0, 0, 0, 0, 1, 7]) =
        (.error (.unknownMessageType 5),
          Stream.ofInput [12, 1, 0, 0, 0, 0, 0, 1, 7]) := by
  refine ⟨by rfl, by rfl, by rfl⟩

/-- C15, amended: a successful `Read` consumes exactly the `8 + Length` bytes
of the frame at the head of the stream and returns the header it decoded
from them. So for every two messages `m1`, `m2` of variants `Write` lists
other than suspension, error and end, 16-bit flag words `f1`, `f2` and a
protobuf library that decodes what it encoded for them, after `m1` and then
`m2` were written successfully, two calls of `Read` on the bytes written
return the frame of `m1` first and the frame of `m2` second, each with the
type code, flag word and payload of its own message, and leave nothing
unread. -/
theorem sequential_framing {P : Type} (proto : ProtoLib P) (s s1 s2 : Stream)
    (m1 m2 : ProtoMessage P) (f1 f2 : Nat) (hf1 : f1 < 65536) (hf2 : f2 < 65536)
    (hk1 : m1.kind ∉ [ProtoKind.SuspensionMessage, .ErrorMessage, .EndMessage])
    (hk2 : m2.kind ∉ [ProtoKind.SuspensionMessage, .ErrorMessage, .EndMessage])
    (hp1 : ∀ p, proto.Marshal m1 = .ok p → proto.Unmarshal m1.kind p = .ok m1.body)
    (hp2 : ∀ p, proto.Marshal m2 = .ok p → proto.Unmarshal m2.kind p = .ok m2.body)
    (hW1 : Protocol.Write proto s m1 f1 = (.ok (), s1))
    (hW2 : Protocol.Write proto s1 m2 f2 = (.ok (), s2)) :
    (∀ (t t1 : Stream) (msg : Message P), Protocol.Read proto t = (.ok msg, t1) →
      8 + msg.Header.Length ≤ t.input.length ∧
        t1.input = t.input.drop (8 + msg.Header.Length) ∧
        msg.Header = Header.decode (t.input.take 8)) ∧
    ∃ msg1 msg2 r1,
      Protocol.Read proto (Stream.ofInput (s2.output.drop s.output.length)) =
        (.ok msg1, r1) ∧
      Protocol.Read proto r1 = (.ok msg2, Stream.ofInput []) ∧
      typeOf m1.kind = some msg1.Type ∧ msg1.Flags = f1 ∧ msg1.Payload = m1.body ∧
      msg1.kind = m1.kind ∧
      typeOf m2.kind = some msg2.Type ∧ msg2.Flags = f2 ∧ msg2.Payload = m2.body ∧
      msg2.kind = m2.kind := by
  refine ⟨fun t t1 msg h => ?_, ?_⟩
  · obtain ⟨a, b, -, d⟩ := Read_ok_consumes proto t t1 msg h
    exact ⟨a, b, d⟩
  · obtain ⟨typ1, p1, ht1, hm1, hl1, -, ho1⟩ := Write_ok proto s s1 m1 f1 hW1
    obtain ⟨typ2, p2, ht2, hm2, hl2, -, ho2⟩ := Write_ok proto s1 s2 m2 f2 hW2
    have hpl1 : p1.length < 4294967296 := by unfold MaxUint32 at hl1; omega
    have hpl2 : p2.length < 4294967296 := by unfold MaxUint32 at hl2; omega
    rw [Nat.mod_eq_of_lt hpl1] at ho1
    rw [Nat.mod_eq_of_lt hpl2] at ho2
    simp only [List.mem_cons, List.mem_singleton, List.not_mem_nil, or_false, not_or] at hk1 hk2
    have hb1 : builders proto typ1 = some (builderOf proto m1.kind) := by
      simp [builders, lookup_typeOf _ _ ht1 hk1.1 hk1.2.1 hk1.2.2]
    have hb2 : builders proto typ2 = some (builderOf proto m2.kind) := by
      simp [builders, lookup_typeOf _ _ ht2 hk2.1 hk2.2.1 hk2.2.2]
    have hin1 : (Stream.ofInput (s2.output.drop s.output.length)).input =
        (Header.mk typ1 f1 p1.length).encode ++ p1 ++
          ((Header.mk typ2 f2 p2.length).encode ++ p2) := by
      simp [Stream.ofInput, ho2, ho1]
    have hr1 := Read_frame proto (Stream.ofInput (s2.output.drop s.output.length))
      (Header.mk typ1 f1 p1.length) p1 ((Header.mk typ2 f2 p2.length).encode ++ p2)
      (typeOf_lt _ _ ht1) hf1 rfl hpl1 hin1
    have hr2 := Read_frame proto
      (Stream.ofInput ((Header.mk typ2 f2 p2.length).encode ++ p2))
      (Header.mk typ2 f2 p2.length) p2 [] (typeOf_lt _ _ ht2) hf2 rfl hpl2
      (by simp [Stream.ofInput])
    refine ⟨⟨m1.kind, Header.mk typ1 f1 p1.length, m1.body⟩,
      ⟨m2.kind, Header.mk typ2 f2 p2.length, m2.body⟩,
      Stream.ofInput ((Header.mk typ2 f2 p2.length).encode ++ p2),
      ?_, ?_, ht1, rfl, rfl, rfl, ht2, rfl, rfl, rfl⟩
    · rw [hr1]
      simp [hb1, builderOf, hp1 p1 hm1, Stream.ofInput]
    · rw [hr2]
      simp [hb2, builderOf, hp2 p2 hm2, Stream.ofInput]

/-- C15, witness: a call entry `07` with flags `0x0001` and an input entry
`08 09` with flags `0x8000`, written one after the other and read back. -/
theorem sequential_framing_witness :
    ∃ msg1 msg2 r1,
      Protocol.Read rawProto (Stream.ofInput
        [12, 1, 0, 1, 0, 0, 0, 1, 7, 4, 0, 128, 0, 0, 0, 0, 2, 8, 9]) = (.ok msg1, r1) ∧
      Protocol.Read rawProto r1 = (.ok msg2, Stream.ofInput []) ∧
      typeOf ProtoKind.CallEntryMessage = some msg1.Type ∧ msg1.Flags = 0x0001 ∧
      msg1.Payload = [7] ∧ msg1.kind = .CallEntryMessage ∧
      typeOf ProtoKind.InputEntryMessage = some msg2.Type ∧ msg2.Flags = 0x8000 ∧
      msg2.Payload = [8, 9] ∧ msg2.kind = .InputEntryMessage :=
  (sequential_framing rawProto (Stream.ofInput [])
    (Stream.mk [] [12, 1, 0, 1, 0, 0, 0, 1, 7] none)
    (Stream.mk [] [12, 1, 0, 1, 0, 0, 0, 1, 7, 4, 0, 128, 0, 0, 0, 0, 2, 8, 9] none)
    ⟨.CallEntryMessage, [7]⟩ ⟨.InputEntryMessage, [8, 9]⟩ 0x0001 0x8000
    (by decide) (by decide) (by decide) (by decide)
    (fun _ h => by cases h; rfl) (fun _ h => by cases h; rfl) (by rfl) (by rfl)).2

end Wire

/-! # Further properties of call and send -/

namespace State

open Wire (Bytes)

/-! ## C13: invoke time of a delayed send -/

/-- C13: the one-way call entry `_sendCall` writes carries the invoke time
computed from the current time `now` and the delay (both in nanoseconds).
For a non-zero delay it is the Unix-millisecond timestamp of `now + delay`
as a `uint64`, which for an instant from the Unix epoch on is that timestamp
itself; for a delay of a whole number `d_ms` of milliseconds it is the
millisecond timestamp of `now` plus `d_ms`, so `now + 5000 ms` for five
seconds. For delay 0 it is 0 whatever `now` is. -/
theorem sendCall_invokeTime (c : Machine) (now delay : Int) (service key method : String)
    (params : Bytes) :
    (c.closed = false →
      (c._sendCall now service key method params delay).2.written =
        c.written ++ [Entry.oneWayCall ⟨service, method, params, key, invokeTime now delay⟩]) ∧
    (delay ≠ 0 →
      (invokeTime now delay : Int) = (now + delay) / 1000000 % 18446744073709551616) ∧
    (delay ≠ 0 → 0 ≤ now + delay → now + delay < 9223372036854775808 →
      (invokeTime now delay : Int) = (now + delay) / 1000000) ∧
    (∀ d_ms : Int, d_ms ≠ 0 → 0 ≤ now + d_ms * 1000000 →
      now + d_ms * 1000000 < 9223372036854775808 →
      (invokeTime now (d_ms * 1000000) : Int) = now / 1000000 + d_ms) ∧
    (0 ≤ now → now + 5000000000 < 9223372036854775808 →
      (invokeTime now 5000000000 : Int) = now / 1000000 + 5000) ∧
    invokeTime now 0 = 0 := by
  have hgen : ∀ d : Int, d ≠ 0 →
      (invokeTime now d : Int) = (now + d) / 1000000 % 18446744073709551616 := by
    intro d hd
    have hb : (d != 0) = true := by simpa using hd
    simp only [invokeTime, hb, if_true]
    omega
  refine ⟨?_, hgen delay, ?_, ?_, ?_, ?_⟩
  · intro hc
    simp [Machine._sendCall, Machine.Write, hc]
  · intro hd h0 h1
    rw [hgen delay hd]
    omega
  · intro d_ms hd h0 h1
    rw [hgen _ (by omega)]
    omega
  · intro h0 h1
    rw [hgen _ (by decide)]
    omega
  · rfl

/-- C13, witness: at `now` = 1 700 000 000 123 456 789 ns a delay of five
seconds gives invoke time 1 700 000 005 123 ms, and the entry written carries
it. -/
theorem sendCall_invokeTime_witness :
    (invokeTime 1700000000123456789 5000000000 : Int) =
        1700000000123456789 / 1000000 + 5000 ∧
      (Machine._sendCall ⟨2, 1, [], [], false⟩ 1700000000123456789 "C" "k2" "m2" [9]
        5000000000).2.written =
        [] ++ [Entry.oneWayCall ⟨"C", "m2", [9], "k2",
          invokeTime 1700000000123456789 5000000000⟩] ∧
      invokeTime 1700000000123456789 5000000000 = 1700000005123 :=
  ⟨(sendCall_invokeTime ⟨2, 1, [], [], false⟩ 1700000000123456789 5000000000
      "C" "k2" "m2" [9]).2.2.2.2.1 (by decide) (by decide),
    (sendCall_invokeTime ⟨2, 1, [], [], false⟩ 1700000000123456789 5000000000
      "C" "k2" "m2" [9]).1 rfl,
    by decide⟩

/-! ## C14: the call response handle -/

/-- C14: `Response` delivers failures through the same handle as values. A
stored error is returned as it is, without awaiting (whatever `Await` would
do). Otherwise the error of `Await` is returned when awaiting fails. Once
the entry is completed, a failure result is returned as the terminal error
of `ErrorFromFailure`, which carries the code of the failure; a value result
is decoded into the output, with no error when decoding succeeds and a
terminal error when it fails; and an entry with neither value nor failure is
returned as a terminal error with the protocol-violation code. -/
theorem Response_cases {O : Type} (Await : CallEntryMessage → Except Error CallEntryMessage)
    (unmarshal : Bytes → Except String O) (r : responseFuture) :
    (∀ e, r.err = some e →
      r.Response Await unmarshal = .error e ∧
      ∀ Await2 : CallEntryMessage → Except Error CallEntryMessage,
        r.Response Await2 unmarshal = .error e) ∧
    (∀ msg e, r.err = none → r.msg = some msg → Await msg = .error e →
      r.Response Await unmarshal = .error e) ∧
    (∀ msg completed failure, r.err = none → r.msg = some msg → Await msg = .ok completed →
      completed.Result = some (.Failure failure) →
      r.Response Await unmarshal = .error (ErrorFromFailure failure) ∧
      ∃ cause, ErrorFromFailure failure =
        .terminal cause (some (.ofFailure failure.Code))) ∧
    (∀ msg completed value output, r.err = none → r.msg = some msg →
      Await msg = .ok completed → completed.Result = some (.Value value) →
      unmarshal value = .ok output → r.Response Await unmarshal = .ok output) ∧
    (∀ msg completed value e, r.err = none → r.msg = some msg →
      Await msg = .ok completed → completed.Result = some (.Value value) →
      unmarshal value = .error e →
      r.Response Await unmarshal = .error (.terminal (.decodeResponse value e) none)) ∧
    (∀ msg completed, r.err = none → r.msg = some msg → Await msg = .ok completed →
      completed.Result = none →
      r.Response Await unmarshal =
        .error (.terminal .invalidResult (some .ErrProtocolViolation))) := by
  refine ⟨?_, ?_, ?_, ?_, ?_, ?_⟩
  · intro e he
    exact ⟨by simp [responseFuture.Response, he], fun _ => by simp [responseFuture.Response, he]⟩
  · intro msg e he hm ha
    simp [responseFuture.Response, he, hm, ha]
  · intro msg completed failure he hm ha hr
    exact ⟨by simp [responseFuture.Response, he, hm, ha, hr], _, rfl⟩
  · intro msg completed value output he hm ha hr hu
    simp [responseFuture.Response, he, hm, ha, hr, hu]
  · intro msg completed value e he hm ha hr hu
    simp [responseFuture.Response, he, hm, ha, hr, hu]
  · intro msg completed he hm ha hr
    simp [responseFuture.Response, he, hm, ha, hr]

/-- C14, witness: an issued call whose completion is the failure
(404, "not found") is returned as a terminal error with code 404. -/
theorem Response_cases_witness :
    responseFuture.Response
        (fun m => .ok { m with Result := some (.Failure ⟨404, "not found"⟩) })
        (fun b : Bytes => (.ok b : Except String Bytes))
        ⟨none, some ⟨"B", "m", [1], "k1", none⟩⟩ =
      .error (ErrorFromFailure ⟨404, "not found"⟩) ∧
    ∃ cause, ErrorFromFailure ⟨404, "not found"⟩ =
      .terminal cause (some (.ofFailure (Failure.mk 404 "not found").Code)) :=
  (Response_cases (fun m => .ok { m with Result := some (.Failure ⟨404, "not found"⟩) })
    (fun b : Bytes => (.ok b : Except String Bytes))
    ⟨none, some ⟨"B", "m", [1], "k1", none⟩⟩).2.2.1
    ⟨"B", "m", [1], "k1", none⟩ ⟨"B", "m", [1], "k1", some (.Failure ⟨404, "not found"⟩)⟩
    ⟨404, "not found"⟩ rfl rfl rfl rfl

/-! ## C16: the text of a failure -/

/-- With no percent sign in the format, `doPrintf` copies the format. -/
theorem doPrintf_plain (fuel : Nat) (format : List Char) (h : '%' ∉ format) :
    Fmt.doPrintf (fuel + 1) format = format := by
  have hall : ∀ c ∈ format, (c != '%') = true := by
    intro c hc
    have : c ≠ '%' := fun e => h (e ▸ hc)
    simpa using this
  have hd : format.dropWhile (fun c => c != '%') = [] :=
    List.dropWhile_eq_nil_iff.mpr hall
  have ht : format.takeWhile (fun c => c != '%') = format :=
    List.takeWhile_eq_self_iff.mpr hall
  simp only [Fmt.doPrintf, hd, ht]

/-- A failure message without a percent sign is the text of the error of
`ErrorFromFailure`, and the error carries the code of the failure. -/
theorem ErrorFromFailure_plain (failure : Failure) (h : '%' ∉ failure.Message.data) :
    ErrorFromFailure failure =
      .terminal (.errorf failure.Message) (some (.ofFailure failure.Code)) := by
  simp only [ErrorFromFailure, Fmt.Errorf, Fmt.Sprintf, doPrintf_plain _ _ h]

/-- C16, failing input: for the failure with code 500 and message `100%`,
`ErrorFromFailure` returns a terminal error with code 500 whose text is
`100%!(NOVERB)` and not the message: `fmt.Errorf` reads the message as a
format string. -/
theorem ErrorFromFailure_percent :
    ErrorFromFailure ⟨500, "100%"⟩ =
        .terminal (.errorf "100%!(NOVERB)") (some (.ofFailure 500)) ∧
      ErrorFromFailure ⟨500, "100%"⟩ ≠
        .terminal (.errorf "100%") (some (.ofFailure 500)) ∧
      ErrorFromFailure ⟨500, "50% off"⟩ =
        .terminal (.errorf "50%!o(MISSING)ff") (some (.ofFailure 500)) := by
  refine ⟨by decide, by decide, by decide⟩

end State

/-! # The formatter needs no more fuel than the length of the format -/

namespace Fmt

/-- Dropping a prefix does not lengthen a list. -/
theorem length_dropWhile_le (p : Char → Bool) (l : List Char) :
    (l.dropWhile p).length ≤ l.length :=
  (List.dropWhile_sublist p).length_le

/-- The text `parsenum` leaves is no longer than the text it was given. -/
theorem parsenum_length (l : List Char) (n : Nat) (b : Bool) :
    (parsenum l n b).2.length ≤ l.length := by
  induction l generalizing n b with
  | nil => simp [parsenum]
  | cons c cs ih =>
    unfold parsenum
    split
    · split
      · simp
      · exact Nat.le_succ_of_le (ih _ _)
    · simp

/-- The text `parseArgNumber` leaves is no longer than the text it was given. -/
theorem parseArgNumber_length (l : List Char) :
    (parseArgNumber l).2.length ≤ l.length := by
  unfold parseArgNumber
  split
  · simp
  · have hdw := length_dropWhile_le (fun c => c != ']') (l.drop 1)
    split
    · rename_i inside x rest heq
      have h2 : (l.drop 1).dropWhile (fun c => c != ']') = x :: rest := by
        have := congrArg Prod.snd heq
        simpa [List.span_eq_take_drop] using this
      rw [h2] at hdw
      simp only [List.length_cons, List.length_drop] at hdw
      split <;> simp only <;> omega
    · simp

/-- The text `argNumber` leaves is no longer than the text it was given. -/
theorem argNumber_length (l : List Char) : (argNumber l).1.length ≤ l.length := by
  unfold argNumber
  split
  · exact parseArgNumber_length _
  · simp

/-- The text the width step leaves is no longer than the text it was given. -/
theorem width_length (l : List Char) (b : Bool) : (width l b).2.1.length ≤ l.length := by
  unfold width
  split
  · simp
  · exact parsenum_length _ _ _

/-- The text the precision step leaves is no longer than the text it was given. -/
theorem precision_length (l : List Char) (b : Bool) :
    (precision l b).2.1.length ≤ l.length := by
  unfold precision
  split
  · rename_i t
    have ha := argNumber_length t
    split
    · rename_i t2 f bad heq
      rw [heq] at ha
      simp only [List.length_cons] at ha ⊢
      omega
    · rename_i t1 found bad hne heq
      rw [heq] at ha
      have := parsenum_length t1 0 false
      simp only [List.length_cons] at ha ⊢
      omega
  · simp

/-- The text the verb step leaves is no longer than the text it was given. -/
theorem verb_length (l : List Char) (b : Bool) : (verb l b).2.length ≤ l.length := by
  unfold verb
  split
  · simp
  · split
    · simp
    · split <;> simp

/-- The format left after one verb is no longer than the text after its percent sign. -/
theorem processVerb_length (l : List Char) : (processVerb l).2.length ≤ l.length := by
  have h0 := length_dropWhile_le isFlag l
  have h1 := argNumber_length (l.dropWhile isFlag)
  have h2 := width_length (argNumber (l.dropWhile isFlag)).1
    (argNumber (l.dropWhile isFlag)).2.1
  have h3 := precision_length
    (width (argNumber (l.dropWhile isFlag)).1 (argNumber (l.dropWhile isFlag)).2.1).2.1
    (width (argNumber (l.dropWhile isFlag)).1 (argNumber (l.dropWhile isFlag)).2.1).2.2.1
  unfold processVerb
  simp only
  generalize argNumber (l.dropWhile isFlag) = a at h1 h2 h3 ⊢
  generalize width a.1 a.2.1 = w at h2 h3 ⊢
  generalize precision w.2.1 w.2.2.1 = p at h3 ⊢
  have h4 : (if p.2.2.1 = true then (p.2.1, false, false) else argNumber p.2.1).1.length ≤
      p.2.1.length := by
    split
    · simp
    · exact argNumber_length _
  generalize (if p.2.2.1 = true then (p.2.1, false, false) else argNumber p.2.1) = b at h4 ⊢
  have h5 := verb_length b.1 (!(a.2.2 || w.2.2.2 || p.2.2.2 || b.2.2))
  omega

/-- With more fuel than the format has characters, `doPrintf` gives the result
it gives with one more than the length of the format: it stops because the
format is used up, not because fuel is. -/
theorem doPrintf_fuel (n : Nat) : ∀ (format : List Char) (fuel : Nat),
    format.length ≤ n → format.length < fuel →
    doPrintf fuel format = doPrintf (format.length + 1) format := by
  induction n with
  | zero =>
    intro format fuel hn hf
    have : format = [] := List.length_eq_zero.mp (by omega)
    subst this
    cases fuel with
    | zero => simp at hf
    | succ k => simp [doPrintf]
  | succ n ih =>
    intro format fuel hn hf
    cases fuel with
    | zero => omega
    | succ k =>
      simp only [doPrintf]
      have hd := length_dropWhile_le (fun c => c != '%') format
      split
      · rfl
      · rename_i x t heq
        rw [heq] at hd
        simp only [List.length_cons] at hd
        have hp := processVerb_length t
        rw [ih (processVerb t).2 k (by omega) (by omega),
          ih (processVerb t).2 format.length (by omega) (by omega)]

end Fmt
